import Mathlib

/-!
# Verification of the abinit-research-tools atom-cell manipulation library

Shallow embedding of the Python sources (`abinit_data_types.py`,
`manipulate_cell.py`, `generate_2D_chiral_cell.py`, `repeat_atoms_in_cell.py`,
`dope_cell.py`) and proofs about them.

Numeric coordinate values are modelled as elements of a linear ordered field
(instantiated at `ℚ` for the exact paths and at `ℝ` for the floating-point
geometry pipeline).  Fallible Python code (exceptions) is modelled with
`Except PyErr`.
-/

/-- The kinds of Python exceptions raised by the embedded code. -/
inductive PyErr : Type where
  /-- `RuntimeError('incompatible coordinate systems: '+s1+' and '+s2)` raised by
  the `Coordinate` arithmetic methods when the two operands' system tags differ. -/
  | incompatibleSystems (s1 s2 : String)
  /-- `IndexError` from an out-of-range list subscript. -/
  | indexError
  /-- `ZeroDivisionError` from dividing by zero. -/
  | zeroDivisionError
  /-- `ValueError` from e.g. `Fraction("a/b")`; carries the offending literal. -/
  | valueError (s : String)
  /-- `NameError` / `UnboundLocalError`: a name was referenced before any
  assignment to it; carries the name. -/
  | unboundLocalError (s : String)
  /-- `NameError` for a module-level global that is defined nowhere. -/
  | nameError (s : String)
  /-- `TypeError`; carries a short description. -/
  | typeError (s : String)
  /-- `RuntimeError(msg)`; carries the message. -/
  | runtimeError (msg : String)
  /-- `NotImplementedError`. -/
  | notImplementedError
  /-- `numpy.linalg.LinAlgError`, raised by `numpy.linalg.inv` on a singular
  matrix. -/
  | linAlgError
  deriving DecidableEq, Repr


/-- Decidable equality of `Except` results, for evaluating the embedded
functions on concrete inputs. -/
instance {ε σ : Type} [DecidableEq ε] [DecidableEq σ] : DecidableEq (Except ε σ) := fun x y =>
  match x, y with
  | .ok a, .ok b => if h : a = b then .isTrue (by rw [h]) else .isFalse (by simp [h])
  | .error e, .error e2 => if h : e = e2 then .isTrue (by rw [h]) else .isFalse (by simp [h])
  | .ok _, .error _ => .isFalse (by simp)
  | .error _, .ok _ => .isFalse (by simp)

/-- `abinit_data_types.Coordinate`: an array of numbers plus a string naming the
coordinate system (`coordinate_system` defaults to `"unknown"` in the Python
constructor). -/
structure Coordinate (α : Type) : Type where
  coordinate_array : List α
  coordinate_system : String
  deriving DecidableEq, Repr

/-- `abinit_data_types.Atom`: a nuclear charge `znucl` and a `Coordinate`. -/
structure Atom (α : Type) : Type where
  znucl : ℤ
  coord : Coordinate α
  deriving DecidableEq, Repr

section CoordinateOps

variable {α : Type} [LinearOrderedField α]

/-- Element-wise sum `[self[i] + other[i] for i in xrange(len(self))]`:
driven by the length of the first list, `IndexError` when the second list is
shorter. -/
def addVals : List α → List α → Except PyErr (List α)
  | [], _ => .ok []
  | _ :: _, [] => .error .indexError
  | x :: xs, y :: ys => (addVals xs ys).map ((x + y) :: ·)

/-- Element-wise difference, driven by the length of the first list. -/
def subVals : List α → List α → Except PyErr (List α)
  | [], _ => .ok []
  | _ :: _, [] => .error .indexError
  | x :: xs, y :: ys => (subVals xs ys).map ((x - y) :: ·)

/-- Element-wise product, driven by the length of the first list. -/
def mulVals : List α → List α → Except PyErr (List α)
  | [], _ => .ok []
  | _ :: _, [] => .error .indexError
  | x :: xs, y :: ys => (mulVals xs ys).map ((x * y) :: ·)

/-- Element-wise quotient, driven by the length of the first list.
Dividing by a zero entry raises `ZeroDivisionError` (as Python does for
`int`, `float` and `Fraction` operands alike). -/
def divVals : List α → List α → Except PyErr (List α)
  | [], _ => .ok []
  | _ :: _, [] => .error .indexError
  | x :: xs, y :: ys =>
    if y = 0 then .error .zeroDivisionError
    else (divVals xs ys).map ((x / y) :: ·)

/-- The right operand of a `Coordinate` arithmetic method: Python dispatches on
whether `other` is a `Coordinate`, a `list`, or a scalar. -/
inductive Operand (α : Type) : Type where
  | scalar (x : α)
  | rawList (l : List α)
  | coordinate (c : Coordinate α)
  deriving DecidableEq, Repr

/-- `Coordinate.__add__` (`abinit_data_types.py` lines 44-62). -/
def coordAdd (c : Coordinate α) : Operand α → Except PyErr (Coordinate α)
  | .coordinate d =>
    if c.coordinate_system ≠ d.coordinate_system then
      .error (.incompatibleSystems c.coordinate_system d.coordinate_system)
    else ((addVals c.coordinate_array d.coordinate_array).map (⟨·, c.coordinate_system⟩) :
      Except PyErr (Coordinate α))
  | .rawList l => (addVals c.coordinate_array l).map (⟨·, c.coordinate_system⟩)
  | .scalar x => .ok ⟨c.coordinate_array.map (· + x), c.coordinate_system⟩

/-- `Coordinate.__sub__` (`abinit_data_types.py` lines 64-82). -/
def coordSub (c : Coordinate α) : Operand α → Except PyErr (Coordinate α)
  | .coordinate d =>
    if c.coordinate_system ≠ d.coordinate_system then
      .error (.incompatibleSystems c.coordinate_system d.coordinate_system)
    else ((subVals c.coordinate_array d.coordinate_array).map (⟨·, c.coordinate_system⟩) :
      Except PyErr (Coordinate α))
  | .rawList l => (subVals c.coordinate_array l).map (⟨·, c.coordinate_system⟩)
  | .scalar x => .ok ⟨c.coordinate_array.map (· - x), c.coordinate_system⟩

/-- `Coordinate.__mul__` (`abinit_data_types.py` lines 84-102). -/
def coordMul (c : Coordinate α) : Operand α → Except PyErr (Coordinate α)
  | .coordinate d =>
    if c.coordinate_system ≠ d.coordinate_system then
      .error (.incompatibleSystems c.coordinate_system d.coordinate_system)
    else ((mulVals c.coordinate_array d.coordinate_array).map (⟨·, c.coordinate_system⟩) :
      Except PyErr (Coordinate α))
  | .rawList l => (mulVals c.coordinate_array l).map (⟨·, c.coordinate_system⟩)
  | .scalar x => .ok ⟨c.coordinate_array.map (· * x), c.coordinate_system⟩

/-- `Coordinate.__div__` (`abinit_data_types.py` lines 104-122).  Scalar
division maps `v / x` over the array; Python raises `ZeroDivisionError` at the
first element when `x = 0` (so an empty array succeeds). -/
def coordDiv (c : Coordinate α) : Operand α → Except PyErr (Coordinate α)
  | .coordinate d =>
    if c.coordinate_system ≠ d.coordinate_system then
      .error (.incompatibleSystems c.coordinate_system d.coordinate_system)
    else ((divVals c.coordinate_array d.coordinate_array).map (⟨·, c.coordinate_system⟩) :
      Except PyErr (Coordinate α))
  | .rawList l => (divVals c.coordinate_array l).map (⟨·, c.coordinate_system⟩)
  | .scalar x =>
    (divVals c.coordinate_array (List.replicate c.coordinate_array.length x)).map
      (⟨·, c.coordinate_system⟩)

end CoordinateOps

section PyCombinators

variable {E α β : Type}

/-- A Python list comprehension `[f(x) for x in l]` whose body may raise:
evaluates left to right and aborts at the first exception. -/
def pyMapComp (f : α → Except E β) : List α → Except E (List β)
  | [] => .ok []
  | x :: xs => do
    let y ← f x
    let ys ← pyMapComp f xs
    pure (y :: ys)

/-- A Python list comprehension `[x for x in l if p(x)]` whose test may raise:
evaluates tests left to right and aborts at the first exception. -/
def pyFilterComp (p : α → Except E Bool) : List α → Except E (List α)
  | [] => .ok []
  | x :: xs => do
    let b ← p x
    let rest ← pyFilterComp p xs
    pure (if b then x :: rest else rest)

/-- Python list subscript `l[i]` for a non-negative index: `IndexError` when
out of range. -/
def pyGet (l : List α) (i : ℕ) : Except PyErr α :=
  match l.get? i with
  | some x => .ok x
  | none => .error .indexError

/-- Python `xrange(lo, hi)` over integers. -/
def pyRange (lo hi : ℤ) : List ℤ :=
  (List.range (hi - lo).toNat).map (fun (k : ℕ) => lo + (k : ℤ))

end PyCombinators

section CellManipulation

variable {α : Type} [LinearOrderedField α]

/-- One atom of `repeat_atom_grid_xy`'s comprehension:
`Atom(atom.znucl, atom.coord + [a1, a2, 0])` (the `+` dispatches to the raw-list
branch of `Coordinate.__add__`). -/
def translateXY (atom : Atom α) (a1 a2 : ℤ) : Except PyErr (Atom α) :=
  (coordAdd atom.coord (.rawList [(a1 : α), (a2 : α), 0])).map (fun c => ⟨atom.znucl, c⟩)

/-- The translation-pair grid of `manipulate_cell.repeat_atom_grid_xy`:
`a1, a2 ∈ xrange(-num_times, num_times+1)`, both bounds inclusive in the
produced values, `a1` outermost. -/
def gridPairsInclusive (num_times : ℕ) : List (ℤ × ℤ) :=
  (pyRange (-(num_times : ℤ)) ((num_times : ℤ) + 1)).flatMap fun a1 =>
    (pyRange (-(num_times : ℤ)) ((num_times : ℤ) + 1)).map fun a2 => (a1, a2)

/-- The translation-pair grid of the `repeat_atom_grid_xy` copy in
`generate_2D_chiral_cell.py`: `a1, a2 ∈ xrange(-num_times, num_times)`, whose
upper bound excludes `num_times` itself. -/
def gridPairsExclusive (num_times : ℕ) : List (ℤ × ℤ) :=
  (pyRange (-(num_times : ℤ)) (num_times : ℤ)).flatMap fun a1 =>
    (pyRange (-(num_times : ℤ)) (num_times : ℤ)).map fun a2 => (a1, a2)

/-- `manipulate_cell.repeat_atom_grid_xy` (lines 23-31): tiles the atom list
over the inclusive translation grid, atoms innermost. -/
def repeat_atom_grid_xy (atoms : List (Atom α)) (num_times : ℕ) : Except PyErr (List (Atom α)) :=
  pyMapComp (fun p => translateXY p.2 p.1.1 p.1.2)
    ((gridPairsInclusive num_times).flatMap fun p => atoms.map fun atom => (p, atom))

/-- The copy of `repeat_atom_grid_xy` in `generate_2D_chiral_cell.py`
(lines 128-132).  Unlike the `manipulate_cell.py` copy its loops run over
`xrange(-num_times, num_times)`, excluding `num_times`. -/
def repeat_atom_grid_xy_chiral (atoms : List (Atom α)) (num_times : ℕ) :
    Except PyErr (List (Atom α)) :=
  pyMapComp (fun p => translateXY p.2 p.1.1 p.1.2)
    ((gridPairsExclusive num_times).flatMap fun p => atoms.map fun atom => (p, atom))

/-- What the specification says one tile of the repeat grid is: the atom with
the same `znucl`, its coordinate translated by `(a1, a2, 0)` (third component
kept), over the same system tag.  Written from the spec's words, to be
compared with the code's `translateXY`. -/
def specTranslated (a1 a2 : ℤ) (a : Atom α) : Atom α :=
  ⟨a.znucl,
    ⟨[a.coord.coordinate_array.getD 0 0 + (a1 : α),
      a.coord.coordinate_array.getD 1 0 + (a2 : α),
      a.coord.coordinate_array.getD 2 0],
      a.coord.coordinate_system⟩⟩

/-- `dilate_atom_grid_xy` (both copies):
`[Atom(atom.znucl, atom.coord*[dilation, dilation, 1]) for atom in atoms]`. -/
def dilate_atom_grid_xy (atoms : List (Atom α)) (dilation : α) : Except PyErr (List (Atom α)) :=
  pyMapComp (fun atom =>
    (coordMul atom.coord (.rawList [dilation, dilation, 1])).map (fun c => ⟨atom.znucl, c⟩))
    atoms

/-- `is_inside_unit_cell` (identical copies in `manipulate_cell.py` lines 64-71
and `generate_2D_chiral_cell.py` lines 158-165).  The Python `and` chain
short-circuits, so a component is subscripted only when all earlier conjuncts
were true; a coordinate with fewer than three components raises `IndexError`
once the test reaches a missing component. -/
def is_inside_unit_cell (c : Coordinate α) : Except PyErr Bool := do
  let x0 ← pyGet c.coordinate_array 0
  if x0 < 0 then return false
  else if 1 ≤ x0 then return false
  else do
    let x1 ← pyGet c.coordinate_array 1
    if x1 < 0 then return false
    else if 1 ≤ x1 then return false
    else do
      let x2 ← pyGet c.coordinate_array 2
      if x2 < 0 then return false
      else return decide (x2 < 1)

/-- The half-open unit-cube test as the specification states it: all three of
the first components lie in `[0, 1)` (components read with default `0`). -/
def insideBool (c : Coordinate α) : Bool :=
  decide (0 ≤ c.coordinate_array.getD 0 0 ∧ c.coordinate_array.getD 0 0 < 1
    ∧ 0 ≤ c.coordinate_array.getD 1 0 ∧ c.coordinate_array.getD 1 0 < 1
    ∧ 0 ≤ c.coordinate_array.getD 2 0 ∧ c.coordinate_array.getD 2 0 < 1)

/-- `modulo_to_unit_cell` (identical copies in both files): each value is taken
`% 1`.  On the exact values the repository parses (`int` and `Fraction`),
Python's `v % 1` is the fractional part `v - ⌊v⌋`. -/
def modulo_to_unit_cell [FloorRing α] (c : Coordinate α) : Coordinate α :=
  ⟨c.coordinate_array.map (fun v => Int.fract v), c.coordinate_system⟩

end CellManipulation

section Doping

variable {α : Type} [LinearOrderedField α]

/-- The inner loop of `dope_cell.dope_atoms`: scan for the first atom whose
`Coordinate` equals (`Coordinate.__eq__`: same system tag and element-wise
equal array) the doping atom's, overwrite its `znucl`, and stop.  `none` when
no atom matches (`successfully_doped_atom` stays false). -/
def dopeOne (d : Atom α) : List (Atom α) → Option (List (Atom α))
  | [] => none
  | a :: rest =>
    if a.coord = d.coord then some ({ a with znucl := d.znucl } :: rest)
    else (dopeOne d rest).map (a :: ·)

/-- `dope_cell.dope_atoms` (lines 63-84): apply the dopants in order; on the
first dopant with no matching atom raise `RuntimeError` naming that dopant.
Since the Python list is mutated in place, the substitutions of the earlier
(matched) dopants have already happened when the error is raised; the error
payload carries the doping atom together with that partially-doped list. -/
def dope_atoms (atoms : List (Atom α)) : List (Atom α) →
    Except (Atom α × List (Atom α)) (List (Atom α))
  | [] => .ok atoms
  | d :: ds =>
    match dopeOne d atoms with
    | some doped => dope_atoms doped ds
    | none => .error (d, atoms)

end Doping

section RepeatCell

variable {α : Type} [LinearOrderedField α]

/-- One direction of the copy loop in `repeat_atoms_in_cell.repeat_atoms_in_unit_cell`
(lines 80-88): for `repitition_number ∈ xrange(1, factor)` append, for each of
the first `num_original_atoms` atoms (which are exactly the atoms the direction
started with, since the list only grows at the end), the atom translated by
`original_cell_size * scale_factor_vector`.  `scale_factor_vector` is `[0,0,0]`
with the current repetition number written at index `dir`. -/
def repeatDir (cellSize : Coordinate α) (dir : ℕ) (factor : ℤ) (l : List (Atom α)) :
    Except PyErr (List (Atom α)) :=
  (pyRange 1 factor).foldlM
    (fun acc rep => do
      let additions ← pyMapComp (fun atom => do
        let offset ← coordMul cellSize (.rawList (([0, 0, 0] : List α).set dir (rep : α)))
        let c ← coordAdd atom.coord (.coordinate offset)
        pure (⟨atom.znucl, c⟩ : Atom α)) l
      pure (acc ++ additions))
    l

/-- `repeat_atoms_in_cell.repeat_atoms_in_unit_cell` (lines 66-89).
If any factor is `0` the empty list is returned at once.  Otherwise every
coordinate is divided component-wise by the factors
(`Atom(atom.znucl, atom.coord / repeat_factor_3d)`), and
`original_cell_size = Coordinate([Fraction(1,x) for x in repeat_factor_3d])`
is built **without** a `coordinate_system` argument, so it carries the
constructor default `"unknown"`; the copy loop then runs over the three
cardinal directions. -/
def repeat_atoms_in_unit_cell (atoms : List (Atom α)) (f : ℤ × ℤ × ℤ) :
    Except PyErr (List (Atom α)) :=
  if f.1 = 0 ∨ f.2.1 = 0 ∨ f.2.2 = 0 then .ok []
  else do
    let flist : List α := [(f.1 : α), (f.2.1 : α), (f.2.2 : α)]
    let scaled ← pyMapComp
      (fun a => (coordDiv a.coord (.rawList flist)).map (fun c => (⟨a.znucl, c⟩ : Atom α)))
      atoms
    let cellSize : Coordinate α := ⟨[(f.1 : α)⁻¹, (f.2.1 : α)⁻¹, (f.2.2 : α)⁻¹], "unknown"⟩
    let l0 ← repeatDir cellSize 0 f.1 scaled
    let l1 ← repeatDir cellSize 1 f.2.1 l0
    repeatDir cellSize 2 f.2.2 l1

end RepeatCell

section CoordinateParsing

/-- A raw coordinate literal as `parse_coordinate_value_array` receives it from
JSON: a dict, a string, or a native numeric.  Values of other types carry
whether Python's `float()` cast would succeed (and the value it yields). -/
inductive RawValue : Type where
  /-- a dict with integer `numerator` and `denominator` fields -/
  | dictNumDen (n d : ℤ)
  /-- a dict with a string `value` field -/
  | dictValue (s : String)
  /-- a dict in neither recognized shape -/
  | dictOther
  /-- a string literal -/
  | str (s : String)
  /-- a Python `int` -/
  | int (n : ℤ)
  /-- a Python `float`, its value as an exact rational -/
  | float (q : ℚ)
  /-- a Python `Fraction` -/
  | fraction (q : ℚ)
  /-- any other type: its type name, and `some q` when `float()` accepts it -/
  | other (typeName : String) (castable : Option ℚ)
  deriving DecidableEq, Repr

/-- A parsed coordinate value: the parser's output preserves the distinction
between exact (`int` / `Fraction`) and floating-point values. -/
inductive PyVal : Type where
  | int (n : ℤ)
  | float (q : ℚ)
  | frac (q : ℚ)
  deriving DecidableEq, Repr

/-- The numeral denoted by a non-empty list of decimal digits, `none` for
anything else. -/
def natOfDigits? (cs : List Char) : Option ℕ :=
  if cs ≠ [] ∧ cs.all Char.isDigit then
    some (cs.foldl (fun n c => 10 * n + (c.toNat - 48)) 0)
  else none

/-- An optionally `-`-signed decimal numeral. -/
def intOfChars? : List Char → Option ℤ
  | '-' :: rest => (natOfDigits? rest).map (fun n => -(n : ℤ))
  | cs => (natOfDigits? cs).map (fun n => (n : ℤ))

/-- Python 2.7 `Fraction(string)` restricted to the forms the repository feeds
it: an optionally signed integer, or `A/B` with `A` optionally signed and `B`
a plain numeral.  A malformed literal raises `ValueError` naming it; a zero
denominator raises `ZeroDivisionError`. -/
def fractionOfString (s : String) : Except PyErr ℚ :=
  match (s.data.splitOn '/').map intOfChars? with
  | [some n] => .ok (n : ℚ)
  | [some n, some d] =>
    if d < 0 then .error (.valueError s)
    else if d = 0 then .error .zeroDivisionError
    else .ok ((n : ℚ) / (d : ℚ))
  | _ => .error (.valueError s)

/-- `abinit_data_types.parse_fraction_from_dict` (lines 303-315).
With `numerator`/`denominator` fields it builds `Fraction(int(n), int(d))`;
with a `value` field, `Fraction(value)`.  Any other dict reaches
`raise NotImplementedError("Unknown Fraction format: "+fraction_dict)`, whose
message concatenates a `str` with a `dict` and therefore itself raises
`TypeError` before the `NotImplementedError` exists. -/
def parse_fraction_from_dict : RawValue → Except PyErr ℚ
  | .dictNumDen n d =>
    if d = 0 then .error .zeroDivisionError else .ok ((n : ℚ) / (d : ℚ))
  | .dictValue s => fractionOfString s
  | _ => .error (.typeError "cannot concatenate str and dict objects")

/-- One iteration of the loop of `parse_coordinate_value_array`
(`abinit_data_types.py` lines 146-169).  `stale` is the current binding of the
local variable `coordinate_index_value`, i.e. the value parsed by the previous
iteration, if any.  The string branch is modelled with the bug the source has:
for a string not containing `/`, line 153 evaluates
`'.' in coordinate_index_value` — the *output* variable instead of the input —
which raises `UnboundLocalError` on the first iteration and `TypeError`
(`argument of type 'int/float/Fraction' is not iterable`) afterwards, since the
previously parsed value is never a container.  The integer-string and
non-numeric-string branches of lines 155-160 are therefore unreachable. -/
def parseOneRawValue (x : RawValue) (stale : Option PyVal) : Except PyErr PyVal :=
  match x with
  | .dictNumDen n d => (parse_fraction_from_dict (.dictNumDen n d)).map .frac
  | .dictValue s => (parse_fraction_from_dict (.dictValue s)).map .frac
  | .dictOther => (parse_fraction_from_dict .dictOther).map .frac
  | .str s =>
    if s.data.contains '/' then (fractionOfString s).map .frac
    else
      match stale with
      | none => .error (.unboundLocalError "coordinate_index_value")
      | some _ => .error (.typeError "argument of type is not iterable")
  | .int n => .ok (.int n)
  | .float q => .ok (.float q)
  | .fraction q => .ok (.frac q)
  | .other ty castable =>
    match castable with
    | some q => .ok (.float q)
    | none =>
      .error (.runtimeError
        ("Unexpected data type " ++ ty ++ "encountered while parsing atom coordinates"))

/-- The loop of `parse_coordinate_value_array`, threading the stale
`coordinate_index_value` binding from one iteration to the next. -/
def parseValueLoop : List RawValue → Option PyVal → Except PyErr (List PyVal)
  | [], _ => .ok []
  | x :: xs, stale => do
    let v ← parseOneRawValue x stale
    let rest ← parseValueLoop xs (some v)
    pure (v :: rest)

/-- `Coordinate.parse_coordinate_value_array` (`abinit_data_types.py`
lines 137-170). -/
def parse_coordinate_value_array (raw : List RawValue) : Except PyErr (List PyVal) :=
  parseValueLoop raw none

end CoordinateParsing

section AtomicNames

/-- The `atomic_names` table of `abinit_data_types.py` (lines 403-521):
`(atomic number, symbol, element name)` triples, indexed so that entry `n`
carries atomic number `n`. -/
def atomic_names : List (Nat × String × String) := [
  (0, "-", "DUMMY"),
  (1, "H", "Hydrogen"),
  (2, "He", "Helium"),
  (3, "Li", "Lithium"),
  (4, "Be", "Beryllium"),
  (5, "B", "Boron"),
  (6, "C", "Carbon"),
  (7, "N", "Nitrogen"),
  (8, "O", "Oxygen"),
  (9, "F", "Fluorine"),
  (10, "Ne", "Neon"),
  (11, "Na", "Sodium"),
  (12, "Mg", "Magnesium"),
  (13, "Al", "Aluminum"),
  (14, "Si", "Silicon"),
  (15, "P", "Phosphorus"),
  (16, "S", "Sulfur"),
  (17, "Cl", "Chlorine"),
  (18, "Ar", "Argon"),
  (19, "K", "Potassium"),
  (20, "Ca", "Calcium"),
  (21, "Sc", "Scandium"),
  (22, "Ti", "Titanium"),
  (23, "V", "Vanadium"),
  (24, "Cr", "Chromium"),
  (25, "Mn", "Manganese"),
  (26, "Fe", "Iron"),
  (27, "Co", "Cobalt"),
  (28, "Ni", "Nickel"),
  (29, "Cu", "Copper"),
  (30, "Zn", "Zinc"),
  (31, "Ga", "Gallium"),
  (32, "Ge", "Germanium"),
  (33, "As", "Arsenic"),
  (34, "Se", "Selenium"),
  (35, "Br", "Bromine"),
  (36, "Kr", "Krypton"),
  (37, "Rb", "Rubidium"),
  (38, "Sr", "Strontium"),
  (39, "Y", "Yttrium"),
  (40, "Zr", "Zirconium"),
  (41, "Nb", "Niobium"),
  (42, "Mo", "Molybdenum"),
  (43, "Tc", "Technetium"),
  (44, "Ru", "Ruthenium"),
  (45, "Rh", "Rhodium"),
  (46, "Pd", "Palladium"),
  (47, "Ag", "Silver"),
  (48, "Cd", "Cadmium"),
  (49, "In", "Indium"),
  (50, "Sn", "Tin"),
  (51, "Sb", "Antimony"),
  (52, "Te", "Tellurium"),
  (53, "I", "Iodine"),
  (54, "Xe", "Xenon"),
  (55, "Cs", "Cesium"),
  (56, "Ba", "Barium"),
  (57, "La", "Lanthanum"),
  (58, "Ce", "Cerium"),
  (59, "Pr", "Praseodymium"),
  (60, "Nd", "Neodymium"),
  (61, "Pm", "Promethium"),
  (62, "Sm", "Samarium"),
  (63, "Eu", "Europium"),
  (64, "Gd", "Gadolinium"),
  (65, "Tb", "Terbium"),
  (66, "Dy", "Dysprosium"),
  (67, "Ho", "Holmium"),
  (68, "Er", "Erbium"),
  (69, "Tm", "Thulium"),
  (70, "Yb", "Ytterbium"),
  (71, "Lu", "Lutetium"),
  (72, "Hf", "Hafnium"),
  (73, "Ta", "Tantalum"),
  (74, "W", "Tungsten"),
  (75, "Re", "Rhenium"),
  (76, "Os", "Osmium"),
  (77, "Ir", "Iridium"),
  (78, "Pt", "Platinum"),
  (79, "Au", "Gold"),
  (80, "Hg", "Mercury"),
  (81, "Tl", "Thallium"),
  (82, "Pb", "Lead"),
  (83, "Bi", "Bismuth"),
  (84, "Po", "Polonium"),
  (85, "At", "Astatine"),
  (86, "Rn", "Radon"),
  (87, "Fr", "Francium"),
  (88, "Ra", "Radium"),
  (89, "Ac", "Actinium"),
  (90, "Th", "Thorium"),
  (91, "Pa", "Protactinium"),
  (92, "U", "Uranium"),
  (93, "Np", "Neptunium"),
  (94, "Pu", "Plutonium"),
  (95, "Am", "Americium"),
  (96, "Cm", "Curium"),
  (97, "Bk", "Berkelium"),
  (98, "Cf", "Californium"),
  (99, "Es", "Einsteinium"),
  (100, "Fm", "Fermium"),
  (101, "Md", "Mendelevium"),
  (102, "No", "Nobelium"),
  (103, "Lr", "Lawrencium"),
  (104, "Rf", "Rutherfordium"),
  (105, "Db", "Dubnium"),
  (106, "Sg", "Seaborgium"),
  (107, "Bh", "Bohrium"),
  (108, "Hs", "Hassium"),
  (109, "Mt", "Meitnerium"),
  (110, "Ds", "Darmstadtium"),
  (111, "Rg", "Roentgenium"),
  (112, "Cn", "Copernicium"),
  (113, "Nh", "Nihonium"),
  (114, "Fl", "Flerovium"),
  (115, "Mc", "Moscovium"),
  (116, "Lv", "Livermorium"),
  (117, "Ts", "Tennessine"),
  (118, "Og", "Oganesson")
]

/-- `get_atomic_symbol` (lines 523-525): `atomic_names[atomic_number][1]`,
for the non-negative indices the specification covers (Python's negative
indexing is out of the claims' scope); out-of-range raises `IndexError`. -/
def get_atomic_symbol (atomic_number : ℕ) : Except PyErr String :=
  match atomic_names.get? atomic_number with
  | some e => .ok e.2.1
  | none => .error .indexError

/-- `get_atomic_number` (lines 527-529).  Its body is
`[element[0] for element in element_names if element[1] == element_symbol][0]`,
but neither `element_names` nor `element_symbol` is defined anywhere in the
module (the table is `atomic_names`, the parameter `atomic_symbol`), so the
lookup of the comprehension's iterable raises `NameError` for every input and
the function can never return. -/
def get_atomic_number (_atomic_symbol : String) : Except PyErr ℕ :=
  .error (.nameError "element_names")

end AtomicNames

section Geometry

open Matrix

/-- `dotproduct(v1, v2)` (both files): `sum(a*b for a, b in zip(v1, v2))`;
`zip` truncates to the shorter list. -/
def dotproduct (v1 v2 : List ℝ) : ℝ :=
  ((v1.zip v2).map (fun p => p.1 * p.2)).sum

/-- `length_of(v)`: `sqrt(dotproduct(v, v))`. -/
noncomputable def length_of (v : List ℝ) : ℝ :=
  Real.sqrt (dotproduct v v)

/-- `angle_between(v1, v2)` (both files):
`acos(dotproduct(v1, v2) / (length_of(v1) * length_of(v2)))`, as real
arithmetic.  When the denominator is zero the Python caller divides a numpy
`1x1` matrix by `0.0`, which yields `inf`/`nan` with a warning rather than an
exception, and the `nan` then poisons the rest of the pipeline; that
floating-point corner has no counterpart in ℝ and is not modelled — the
theorem about `generate_xy_chiral_cell` excludes it by requiring both lengths
nonzero. -/
noncomputable def angle_between (v1 v2 : List ℝ) : ℝ :=
  Real.arccos (dotproduct v1 v2 / (length_of v1 * length_of v2))

/-- `xy_rotation_matrix(angle)` (both files): rotation about the z axis. -/
noncomputable def xy_rotation_matrix (angle : ℝ) : Matrix (Fin 3) (Fin 3) ℝ :=
  !![Real.cos angle, -Real.sin angle, 0;
     Real.sin angle, Real.cos angle, 0;
     0, 0, 1]

/-- `transformation_matrix * col_matrix(arr)` applied to a coordinate array:
a `numpy` matrix-vector product demands a length-3 array (`ValueError`
otherwise). -/
def matVecMul3 (m : Matrix (Fin 3) (Fin 3) ℝ) : List ℝ → Except PyErr (List ℝ)
  | [x, y, z] =>
    .ok [m 0 0 * x + m 0 1 * y + m 0 2 * z,
         m 1 0 * x + m 1 1 * y + m 1 2 * z,
         m 2 0 * x + m 2 1 * y + m 2 2 * z]
  | _ => .error (.valueError "shapes not aligned")

/-- `rotate_atom_grid_xy(atoms, angle, real_unit_cell_basis)` (identical copies
in `manipulate_cell.py` lines 11-21 and `generate_2D_chiral_cell.py`
lines 118-126): apply `inv(basis) * rotation * basis` to every coordinate
array, keeping `znucl` and the coordinate system.  `numpy.linalg.inv` raises
`LinAlgError` on a singular basis, modelled by the determinant guard. -/
noncomputable def rotate_atom_grid_xy (atoms : List (Atom ℝ)) (angle : ℝ)
    (basis : Matrix (Fin 3) (Fin 3) ℝ) : Except PyErr (List (Atom ℝ)) :=
  if basis.det = 0 then .error .linAlgError
  else
    pyMapComp (fun atom =>
      (matVecMul3 (basis⁻¹ * xy_rotation_matrix angle * basis) atom.coord.coordinate_array).map
        (fun arr => ⟨atom.znucl, ⟨arr, atom.coord.coordinate_system⟩⟩))
      atoms

/-- Column `j` of the basis matrix as a list (numpy `basis[:, j]`). -/
def colList (basis : Matrix (Fin 3) (Fin 3) ℝ) (j : Fin 3) : List ℝ :=
  [basis 0 j, basis 1 j, basis 2 j]

/-- `real_chirality_vector` of `generate_xy_chiral_cell` (lines 98-99):
`basis[:,0]*chirality[0] + basis[:,1]*chirality[1]`. -/
def realChirVec (basis : Matrix (Fin 3) (Fin 3) ℝ) (chir : ℤ × ℤ) : List ℝ :=
  ((colList basis 0).zip (colList basis 1)).map
    (fun p => p.1 * (chir.1 : ℝ) + p.2 * (chir.2 : ℝ))

/-- The tiled-rotated-dilated intermediate list of `generate_xy_chiral_cell`
(lines 101-114): everything the function computes before the final
`is_inside_unit_cell` filter. -/
noncomputable def chiral_intermediate (atoms : List (Atom ℝ)) (chir : ℤ × ℤ)
    (basis : Matrix (Fin 3) (Fin 3) ℝ) : Except PyErr (List (Atom ℝ)) := do
  let repeated ← repeat_atom_grid_xy_chiral atoms
    (⌊length_of (realChirVec basis chir)⌋₊ + 2)
  let rotated ← rotate_atom_grid_xy repeated
    (-(angle_between (realChirVec basis chir) (colList basis 0))) basis
  dilate_atom_grid_xy rotated (1 / length_of (realChirVec basis chir))

/-- `generate_2D_chiral_cell.generate_xy_chiral_cell` (lines 67-116).
The rotation angle is `-angle_between(real_chirality_vector, basis[:,0])`
(line 101); the number of repetitions is `int(|real_chirality_vector|) + 2`
(line 103, `int()` truncates the non-negative length, i.e. takes its floor);
after tiling, rotating (which raises `LinAlgError` on a singular basis) and
dilating by `1/|real_chirality_vector|`, the final comprehension keeps the
atoms passing `is_inside_unit_cell`. -/
noncomputable def generate_xy_chiral_cell (atoms : List (Atom ℝ)) (chir : ℤ × ℤ)
    (basis : Matrix (Fin 3) (Fin 3) ℝ) : Except PyErr (List (Atom ℝ)) := do
  let normalized ← chiral_intermediate atoms chir basis
  pyFilterComp (fun atom => is_inside_unit_cell atom.coord) normalized

/-- `Coordinate.norm` (`abinit_data_types.py` lines 131-135):
`sum([val * val for val in self.coordinate_array])**0.5`. -/
noncomputable def coordNorm (c : Coordinate ℝ) : ℝ :=
  Real.sqrt ((c.coordinate_array.map (fun v => v * v)).sum)

/-- The index pairs of `get_collisions`' nested loops,
`for i in xrange(0, len(atoms)): for j in xrange(i + 1, len(atoms))`,
in the order the loops produce them. -/
def indexPairs (n : ℕ) : List (ℕ × ℕ) :=
  (List.range n).flatMap fun i =>
    (List.range' (i + 1) (n - (i + 1))).map fun j => (i, j)

/-- A default atom for total list indexing (the Python subscripts in
`get_collisions` are always in bounds by construction). -/
def dummyAtom : Atom ℝ := ⟨0, ⟨[], "unknown"⟩⟩

/-- The body of `get_collisions`' inner loop at the index pair `p`:
subtract the two atoms' coordinates (`Coordinate.__sub__`, which can raise)
and yield the atom pair when the norm is below the threshold. -/
noncomputable def collisionStep (atoms : List (Atom ℝ)) (distance_threshold : ℝ)
    (p : ℕ × ℕ) : Except PyErr (List (Atom ℝ × Atom ℝ)) := do
  let d ← coordSub (atoms.getD p.1 dummyAtom).coord
    (.coordinate (atoms.getD p.2 dummyAtom).coord)
  if coordNorm d < distance_threshold then
    pure [(atoms.getD p.1 dummyAtom, atoms.getD p.2 dummyAtom)]
  else pure []

/-- `manipulate_cell.get_collisions` (lines 99-103): for every `i < j` yield
the pair `(atoms[i], atoms[j])` when
`(atoms[i].coord - atoms[j].coord).norm() < distance_threshold`.  The
generator is modelled as the list of yielded pairs. -/
noncomputable def get_collisions (atoms : List (Atom ℝ)) (distance_threshold : ℝ) :
    Except PyErr (List (Atom ℝ × Atom ℝ)) :=
  (pyMapComp (collisionStep atoms distance_threshold) (indexPairs atoms.length)).map
    List.flatten

/-- The coordinate difference `atoms[i].coord - atoms[j].coord` as the
specification describes it: element-wise difference over the common length,
keeping the left operand's system tag. -/
def coordDiffSpec (c d : Coordinate ℝ) : Coordinate ℝ :=
  ⟨List.zipWith (fun x y => x - y) c.coordinate_array d.coordinate_array,
    c.coordinate_system⟩

/-- The collision pairs as the specification describes them: for each index
pair `(i, j)` with `i < j`, the atom pair whenever the Euclidean norm of the
coordinate difference is strictly below the threshold. -/
noncomputable def collisionList (atoms : List (Atom ℝ)) (t : ℝ) : List (Atom ℝ × Atom ℝ) :=
  (indexPairs atoms.length).filterMap fun p =>
    if coordNorm (coordDiffSpec (atoms.getD p.1 dummyAtom).coord
        (atoms.getD p.2 dummyAtom).coord) < t then
      some (atoms.getD p.1 dummyAtom, atoms.getD p.2 dummyAtom)
    else none

end Geometry

section ConcreteInputs

/-- A silicon atom at the origin in the `"reduced"` system, as
`parse_atom_attribute_from_dict` produces it. -/
def atomSi : Atom ℚ := ⟨14, ⟨[0, 0, 0], "reduced"⟩⟩

/-- A default atom for total list indexing in statements (the Python
subscripts it stands in for are always in bounds). -/
def dummyAtomGen {α : Type} : Atom α := ⟨0, ⟨[], "unknown"⟩⟩

end ConcreteInputs

theorem pyMapComp_ok_of_forall {E α β : Type} (f : α → Except E β) (g : α → β) :
    ∀ l : List α, (∀ x ∈ l, f x = .ok (g x)) → pyMapComp f l = .ok (l.map g)
  | [], _ => rfl
  | x :: xs, h => by
    have hx : f x = .ok (g x) := h x (List.mem_cons_self x xs)
    have hxs := pyMapComp_ok_of_forall f g xs (fun y hy => h y (List.mem_cons_of_mem x hy))
    simp [pyMapComp, hx, hxs, Bind.bind, Except.bind, Pure.pure, Except.pure, List.map_cons]

theorem pyFilterComp_ok_of_forall {E α : Type} (p : α → Except E Bool) (q : α → Bool) :
    ∀ l : List α, (∀ x ∈ l, p x = .ok (q x)) → pyFilterComp p l = .ok (l.filter q)
  | [], _ => rfl
  | x :: xs, h => by
    have hx : p x = .ok (q x) := h x (List.mem_cons_self x xs)
    have hxs := pyFilterComp_ok_of_forall p q xs (fun y hy => h y (List.mem_cons_of_mem x hy))
    cases hq : q x <;>
      simp [pyFilterComp, hx, hxs, Bind.bind, Except.bind, Pure.pure, Except.pure,
        List.filter_cons, hq]

theorem pyRange_length (lo hi : ℤ) : (pyRange lo hi).length = (hi - lo).toNat := by
  unfold pyRange
  rw [List.length_map, List.length_range]

theorem flatMap_map_length {α β γ : Type} (g : α → β → γ) (pairs : List α) (atoms : List β) :
    (pairs.flatMap (fun p => atoms.map (g p))).length = pairs.length * atoms.length := by
  induction pairs with
  | nil => simp
  | cons p ps ih =>
    simp only [List.flatMap_cons, List.length_append, List.length_map, ih, List.length_cons]
    ring

/-- **C6.**  `repeat_atoms_in_unit_cell` returns the empty atom list, without
raising, whenever the repeat-factor triple contains a zero component, for every
input atom list: the guard `if 0 in repeat_factor_3d: return []` runs before
any other work. -/
theorem repeat_atoms_in_unit_cell_zero_factor {α : Type} [LinearOrderedField α]
    (atoms : List (Atom α)) (f : ℤ × ℤ × ℤ)
    (h : f.1 = 0 ∨ f.2.1 = 0 ∨ f.2.2 = 0) :
    repeat_atoms_in_unit_cell atoms f = .ok [] := by
  unfold repeat_atoms_in_unit_cell
  rw [if_pos h]

/-- **C6, witness.**  A non-empty atom list with factors `(0, 2, 3)`. -/
theorem repeat_atoms_in_unit_cell_zero_factor_witness :
    ((0 : ℤ) = 0 ∨ (2 : ℤ) = 0 ∨ (3 : ℤ) = 0) ∧
      repeat_atoms_in_unit_cell [atomSi] ((0, 2, 3) : ℤ × ℤ × ℤ) = .ok [] :=
  ⟨by decide, repeat_atoms_in_unit_cell_zero_factor [atomSi] (0, 2, 3) (by decide)⟩

/-- **C3.**  The claim (output length `len(A)·nx·ny·nz` for factors `≥ 1`) is
the function's documented purpose, but the code trips over its own coordinate
systems: `original_cell_size` is constructed without a `coordinate_system` and
defaults to `"unknown"`, while atoms parsed by `parse_atoms` are `"reduced"`,
so the very first translated copy computed by
`atom.coord + original_cell_size * scale_factor_vector` raises
`RuntimeError('incompatible coordinate systems: reduced and unknown')`.
Evaluated here at a single reduced atom with factors `(2, 1, 1)`, where the
claim demands a 2-atom result. -/
theorem repeat_atoms_in_unit_cell_system_clash :
    repeat_atoms_in_unit_cell [atomSi] ((2, 1, 1) : ℤ × ℤ × ℤ) =
      .error (.incompatibleSystems "reduced" "unknown") := by
  rfl

/-- **C4.**  The claim says decimal strings parse to floats, integer strings to
exact values, and unrecognized strings fail with an error naming the literal;
but lines 153-157 of `abinit_data_types.py` test and convert
`coordinate_index_value` — the output of the *previous* loop iteration —
instead of `coordinate_index`.  Any string literal without a `/` therefore
raises `UnboundLocalError` on the first iteration and `TypeError` on later
ones, and the documented string handling is unreachable. -/
theorem parse_coordinate_value_array_stale_variable :
    parse_coordinate_value_array [.str "0.5"] =
        .error (.unboundLocalError "coordinate_index_value") ∧
      parse_coordinate_value_array [.str "1/2", .str "7"] =
        .error (.typeError "argument of type is not iterable") :=
  ⟨rfl, rfl⟩

/-- **C10.**  `get_atomic_number` references the undefined globals
`element_names` / `element_symbol`, so it raises `NameError` for every input
and never returns; `get_atomic_symbol n` returns the symbol of the element
with atomic number `n` for every `n ≤ 118`, because entry `n` of
`atomic_names` carries atomic number `n`. -/
theorem atomic_lookup_spec :
    (∀ s : String, get_atomic_number s = .error (.nameError "element_names")) ∧
      ∀ n : ℕ, n < 119 →
        ∃ sym name, atomic_names.get? n = some (n, sym, name) ∧
          get_atomic_symbol n = .ok sym := by
  refine ⟨fun _ => rfl, fun n hn => ?_⟩
  have h : (atomic_names.get? n).map Prod.fst = some n := by
    revert hn
    revert n
    decide
  obtain ⟨e, he, hfst⟩ := Option.map_eq_some'.mp h
  obtain ⟨num, sym, name⟩ := e
  refine ⟨sym, name, ?_, ?_⟩
  · rw [he]
    simp only at hfst
    rw [hfst]
  · unfold get_atomic_symbol
    rw [he]

/-- **C10, witness.**  Instantiated at `"Si"` and at atomic number 14. -/
theorem atomic_lookup_spec_witness :
    get_atomic_number "Si" = .error (.nameError "element_names") ∧
      ∃ sym name, atomic_names.get? 14 = some (14, sym, name) ∧
        get_atomic_symbol 14 = .ok sym :=
  ⟨atomic_lookup_spec.1 "Si", atomic_lookup_spec.2 14 (by decide)⟩

theorem exists_three_cons {β : Type} (l : List β) (h : 3 ≤ l.length) :
    ∃ a b c t, l = a :: b :: c :: t := by
  match l with
  | [] => simp at h
  | [a] => simp at h
  | [a, b] => simp at h
  | a :: b :: c :: t => exact ⟨a, b, c, t, rfl⟩

/-- **C9, counterexample.**  The claim quantifies over every exact Coordinate,
but on a coordinate with fewer than three components (here `[-5]`) the
modulo-d result does not satisfy `is_inside_unit_cell`: all its components lie
in `[0, 1)`, so the test runs past them and raises `IndexError` on the missing
second component instead of returning `True`. -/
theorem modulo_to_unit_cell_short_coordinate :
    is_inside_unit_cell (modulo_to_unit_cell (⟨[(-5 : ℚ)], "reduced"⟩ : Coordinate ℚ)) ≠
      .ok true := by
  have hf : Int.fract (-5 : ℚ) = 0 := by norm_num [Int.fract]
  have h10 : ¬ (1 : ℚ) ≤ 0 := by norm_num
  simp [modulo_to_unit_cell, is_inside_unit_cell, pyGet, hf, h10, Bind.bind, Except.bind]

/-- **C9, amended.**  For every exact-valued Coordinate, each component of
`modulo_to_unit_cell`'s result lies in the half-open interval `[0, 1)`, and the
result keeps the input's system tag and length; when the coordinate has at
least three components the result moreover passes `is_inside_unit_cell`. -/
theorem modulo_to_unit_cell_spec {α : Type} [LinearOrderedField α] [FloorRing α]
    (c : Coordinate α) :
    (∀ v ∈ (modulo_to_unit_cell c).coordinate_array, 0 ≤ v ∧ v < 1) ∧
      (modulo_to_unit_cell c).coordinate_system = c.coordinate_system ∧
      (modulo_to_unit_cell c).coordinate_array.length = c.coordinate_array.length ∧
      (3 ≤ c.coordinate_array.length →
        is_inside_unit_cell (modulo_to_unit_cell c) = .ok true) := by
  refine ⟨?_, rfl, by simp [modulo_to_unit_cell], fun h3 => ?_⟩
  · intro v hv
    simp only [modulo_to_unit_cell, List.mem_map] at hv
    obtain ⟨w, _, rfl⟩ := hv
    exact ⟨Int.fract_nonneg w, Int.fract_lt_one w⟩
  · obtain ⟨x0, x1, x2, t, harr⟩ := exists_three_cons c.coordinate_array h3
    have h0 : ¬ Int.fract x0 < 0 := not_lt.mpr (Int.fract_nonneg x0)
    have h0' : ¬ (1 : α) ≤ Int.fract x0 := not_le.mpr (Int.fract_lt_one x0)
    have h1 : ¬ Int.fract x1 < 0 := not_lt.mpr (Int.fract_nonneg x1)
    have h1' : ¬ (1 : α) ≤ Int.fract x1 := not_le.mpr (Int.fract_lt_one x1)
    have h2 : ¬ Int.fract x2 < 0 := not_lt.mpr (Int.fract_nonneg x2)
    have h2' : Int.fract x2 < 1 := Int.fract_lt_one x2
    simp [modulo_to_unit_cell, is_inside_unit_cell, pyGet, harr, Bind.bind, Except.bind,
      h0, h0', h1, h1', h2, h2', Pure.pure, Except.pure]

/-- **C9, witness.**  A three-component exact coordinate. -/
theorem modulo_to_unit_cell_spec_witness :
    is_inside_unit_cell (modulo_to_unit_cell (⟨[(5 : ℚ)/2, -1/3, 7], "reduced"⟩ : Coordinate ℚ)) =
      .ok true :=
  (modulo_to_unit_cell_spec ⟨[(5 : ℚ)/2, -1/3, 7], "reduced"⟩).2.2.2 (by decide)

theorem addVals_cases {α : Type} [LinearOrderedField α] :
    ∀ l1 l2 : List α, (∃ r, addVals l1 l2 = .ok r) ∨ addVals l1 l2 = .error .indexError
  | [], _ => .inl ⟨[], rfl⟩
  | _ :: _, [] => .inr rfl
  | x :: xs, y :: ys => by
    rcases addVals_cases xs ys with ⟨r, hr⟩ | hr <;>
      simp [addVals, Except.map, hr]

theorem subVals_cases {α : Type} [LinearOrderedField α] :
    ∀ l1 l2 : List α, (∃ r, subVals l1 l2 = .ok r) ∨ subVals l1 l2 = .error .indexError
  | [], _ => .inl ⟨[], rfl⟩
  | _ :: _, [] => .inr rfl
  | x :: xs, y :: ys => by
    rcases subVals_cases xs ys with ⟨r, hr⟩ | hr <;>
      simp [subVals, Except.map, hr]

theorem mulVals_cases {α : Type} [LinearOrderedField α] :
    ∀ l1 l2 : List α, (∃ r, mulVals l1 l2 = .ok r) ∨ mulVals l1 l2 = .error .indexError
  | [], _ => .inl ⟨[], rfl⟩
  | _ :: _, [] => .inr rfl
  | x :: xs, y :: ys => by
    rcases mulVals_cases xs ys with ⟨r, hr⟩ | hr <;>
      simp [mulVals, Except.map, hr]

theorem divVals_cases {α : Type} [LinearOrderedField α] :
    ∀ l1 l2 : List α, (∃ r, divVals l1 l2 = .ok r) ∨ divVals l1 l2 = .error .indexError ∨
      divVals l1 l2 = .error .zeroDivisionError
  | [], _ => .inl ⟨[], rfl⟩
  | _ :: _, [] => .inr (.inl rfl)
  | x :: xs, y :: ys => by
    by_cases hy : y = 0
    · exact .inr (.inr (by simp [divVals, hy]))
    · rcases divVals_cases xs ys with ⟨r, hr⟩ | hr | hr <;>
        simp [divVals, Except.map, hy, hr]

theorem addVals_ok_of_le {α : Type} [LinearOrderedField α] :
    ∀ l1 l2 : List α, l1.length ≤ l2.length → ∃ r, addVals l1 l2 = .ok r
  | [], _, _ => ⟨[], rfl⟩
  | _ :: _, [], h => by simp at h
  | x :: xs, y :: ys, h => by
    obtain ⟨r, hr⟩ := addVals_ok_of_le xs ys (Nat.succ_le_succ_iff.mp h)
    exact ⟨(x + y) :: r, by simp [addVals, Except.map, hr]⟩

theorem subVals_ok_of_le {α : Type} [LinearOrderedField α] :
    ∀ l1 l2 : List α, l1.length ≤ l2.length → ∃ r, subVals l1 l2 = .ok r
  | [], _, _ => ⟨[], rfl⟩
  | _ :: _, [], h => by simp at h
  | x :: xs, y :: ys, h => by
    obtain ⟨r, hr⟩ := subVals_ok_of_le xs ys (Nat.succ_le_succ_iff.mp h)
    exact ⟨(x - y) :: r, by simp [subVals, Except.map, hr]⟩

theorem mulVals_ok_of_le {α : Type} [LinearOrderedField α] :
    ∀ l1 l2 : List α, l1.length ≤ l2.length → ∃ r, mulVals l1 l2 = .ok r
  | [], _, _ => ⟨[], rfl⟩
  | _ :: _, [], h => by simp at h
  | x :: xs, y :: ys, h => by
    obtain ⟨r, hr⟩ := mulVals_ok_of_le xs ys (Nat.succ_le_succ_iff.mp h)
    exact ⟨(x * y) :: r, by simp [mulVals, Except.map, hr]⟩

theorem divVals_ok_of_le {α : Type} [LinearOrderedField α] :
    ∀ l1 l2 : List α, l1.length ≤ l2.length → (∀ y ∈ l2, y ≠ 0) → ∃ r, divVals l1 l2 = .ok r
  | [], _, _, _ => ⟨[], rfl⟩
  | _ :: _, [], h, _ => by simp at h
  | x :: xs, y :: ys, h, hz => by
    obtain ⟨r, hr⟩ := divVals_ok_of_le xs ys (Nat.succ_le_succ_iff.mp h)
      (fun z hzz => hz z (List.mem_cons_of_mem y hzz))
    have hy : y ≠ 0 := hz y (List.mem_cons_self y ys)
    exact ⟨(x / y) :: r, by simp [divVals, Except.map, hy, hr]⟩

/-- **C7, counterexample.**  The claim says arithmetic between a Coordinate and
a scalar always succeeds, but `Coordinate([1]) / 0` raises
`ZeroDivisionError` (Python raises it for `int`, `Fraction` and `float`
components alike). -/
theorem coordDiv_scalar_zero_cex :
    coordDiv (⟨[(1 : ℚ)], "reduced"⟩ : Coordinate ℚ) (.scalar 0) =
        .error .zeroDivisionError ∧
      ¬ ∃ r, coordDiv (⟨[(1 : ℚ)], "reduced"⟩ : Coordinate ℚ) (.scalar 0) = .ok r := by
  refine ⟨by decide, ?_⟩
  rintro ⟨r, hr⟩
  rw [(by decide :
    coordDiv (⟨[(1 : ℚ)], "reduced"⟩ : Coordinate ℚ) (.scalar 0) =
      .error .zeroDivisionError)] at hr
  exact Except.noConfusion hr

/-- **C7, amended.**  For each of the four arithmetic operations:
two Coordinates with different system tags fail with the error naming both
tags; with equal tags the operation never fails for that reason; arithmetic
with a scalar or a same-length raw list always succeeds with the same system
tag for addition, subtraction and multiplication, and for division provided
the scalar (respectively every list element) is nonzero.  (Division by zero
*can* fail — the counterexample shows `Coordinate([1]) / 0` raising
`ZeroDivisionError` — but need not: an empty coordinate array divides by zero
vacuously, so no universal failure clause is asserted.) -/
theorem coordinate_arithmetic_spec {α : Type} [LinearOrderedField α]
    (c d : Coordinate α) (x : α) (l : List α) :
    (c.coordinate_system ≠ d.coordinate_system →
      coordAdd c (.coordinate d) =
          .error (.incompatibleSystems c.coordinate_system d.coordinate_system) ∧
        coordSub c (.coordinate d) =
          .error (.incompatibleSystems c.coordinate_system d.coordinate_system) ∧
        coordMul c (.coordinate d) =
          .error (.incompatibleSystems c.coordinate_system d.coordinate_system) ∧
        coordDiv c (.coordinate d) =
          .error (.incompatibleSystems c.coordinate_system d.coordinate_system)) ∧
    (c.coordinate_system = d.coordinate_system →
      ∀ s1 s2 : String,
        coordAdd c (.coordinate d) ≠ .error (.incompatibleSystems s1 s2) ∧
        coordSub c (.coordinate d) ≠ .error (.incompatibleSystems s1 s2) ∧
        coordMul c (.coordinate d) ≠ .error (.incompatibleSystems s1 s2) ∧
        coordDiv c (.coordinate d) ≠ .error (.incompatibleSystems s1 s2)) ∧
    ((∃ r, coordAdd c (.scalar x) = .ok r ∧ r.coordinate_system = c.coordinate_system) ∧
      (∃ r, coordSub c (.scalar x) = .ok r ∧ r.coordinate_system = c.coordinate_system) ∧
      (∃ r, coordMul c (.scalar x) = .ok r ∧ r.coordinate_system = c.coordinate_system)) ∧
    (x ≠ 0 →
      ∃ r, coordDiv c (.scalar x) = .ok r ∧ r.coordinate_system = c.coordinate_system) ∧
    (l.length = c.coordinate_array.length →
      (∃ r, coordAdd c (.rawList l) = .ok r ∧ r.coordinate_system = c.coordinate_system) ∧
        (∃ r, coordSub c (.rawList l) = .ok r ∧ r.coordinate_system = c.coordinate_system) ∧
        (∃ r, coordMul c (.rawList l) = .ok r ∧ r.coordinate_system = c.coordinate_system) ∧
        ((∀ y ∈ l, y ≠ 0) →
          ∃ r, coordDiv c (.rawList l) = .ok r ∧ r.coordinate_system = c.coordinate_system)) := by
  refine ⟨fun h => ?_, fun h s1 s2 => ?_, ⟨?_, ?_, ?_⟩, fun hx => ?_, fun hl => ?_⟩
  · exact ⟨by simp [coordAdd, h], by simp [coordSub, h], by simp [coordMul, h],
      by simp [coordDiv, h]⟩
  · refine ⟨?_, ?_, ?_, ?_⟩
    · rcases addVals_cases c.coordinate_array d.coordinate_array with ⟨r, hr⟩ | hr <;>
        simp [coordAdd, h, Except.map, hr]
    · rcases subVals_cases c.coordinate_array d.coordinate_array with ⟨r, hr⟩ | hr <;>
        simp [coordSub, h, Except.map, hr]
    · rcases mulVals_cases c.coordinate_array d.coordinate_array with ⟨r, hr⟩ | hr <;>
        simp [coordMul, h, Except.map, hr]
    · rcases divVals_cases c.coordinate_array d.coordinate_array with ⟨r, hr⟩ | hr | hr <;>
        simp [coordDiv, h, Except.map, hr]
  · exact ⟨_, rfl, rfl⟩
  · exact ⟨_, rfl, rfl⟩
  · exact ⟨_, rfl, rfl⟩
  · obtain ⟨r, hr⟩ := divVals_ok_of_le c.coordinate_array
      (List.replicate c.coordinate_array.length x) (by simp)
      (fun y hy => (List.eq_of_mem_replicate hy) ▸ hx)
    exact ⟨⟨r, c.coordinate_system⟩, by simp [coordDiv, Except.map, hr], rfl⟩
  · refine ⟨?_, ?_, ?_, fun hz => ?_⟩
    · obtain ⟨r, hr⟩ := addVals_ok_of_le c.coordinate_array l (le_of_eq hl.symm)
      exact ⟨⟨r, c.coordinate_system⟩, by simp [coordAdd, Except.map, hr], rfl⟩
    · obtain ⟨r, hr⟩ := subVals_ok_of_le c.coordinate_array l (le_of_eq hl.symm)
      exact ⟨⟨r, c.coordinate_system⟩, by simp [coordSub, Except.map, hr], rfl⟩
    · obtain ⟨r, hr⟩ := mulVals_ok_of_le c.coordinate_array l (le_of_eq hl.symm)
      exact ⟨⟨r, c.coordinate_system⟩, by simp [coordMul, Except.map, hr], rfl⟩
    · obtain ⟨r, hr⟩ := divVals_ok_of_le c.coordinate_array l (le_of_eq hl.symm) hz
      exact ⟨⟨r, c.coordinate_system⟩, by simp [coordDiv, Except.map, hr], rfl⟩

/-- **C7, witness.**  Instantiated at a `"reduced"`/`"cartesian"` pair, the
scalar `2` and the list `[1, 1]`. -/
theorem coordinate_arithmetic_spec_witness :
    (coordAdd (⟨[(1 : ℚ), 2], "reduced"⟩ : Coordinate ℚ)
        (.coordinate ⟨[0, 0], "cartesian"⟩) =
      .error (.incompatibleSystems "reduced" "cartesian")) ∧
    (∃ r, coordDiv (⟨[(1 : ℚ), 2], "reduced"⟩ : Coordinate ℚ) (.scalar 2) = .ok r ∧
      r.coordinate_system = "reduced") ∧
    (∃ r, coordDiv (⟨[(1 : ℚ), 2], "reduced"⟩ : Coordinate ℚ) (.rawList [1, 1]) = .ok r ∧
      r.coordinate_system = "reduced") :=
  ⟨((coordinate_arithmetic_spec ⟨[(1 : ℚ), 2], "reduced"⟩ ⟨[0, 0], "cartesian"⟩ 2 [1, 1]).1
      (by decide)).1,
    (coordinate_arithmetic_spec ⟨[(1 : ℚ), 2], "reduced"⟩ ⟨[0, 0], "cartesian"⟩ 2 [1, 1]).2.2.2.1
      (by decide),
    ((coordinate_arithmetic_spec ⟨[(1 : ℚ), 2], "reduced"⟩ ⟨[0, 0], "cartesian"⟩ 2 [1, 1]).2.2.2.2
      (by decide)).2.2.2 (by decide)⟩

theorem map_flatMap_helper {A B C : Type} (l : List A) (f : A → List B) (g : B → C) :
    (l.flatMap f).map g = l.flatMap fun a => (f a).map g := by
  induction l with
  | nil => simp
  | cons a t ih => simp [List.flatMap_cons, ih]

theorem translateXY_ok {α : Type} [LinearOrderedField α] (a : Atom α) (a1 a2 : ℤ)
    (h : a.coord.coordinate_array.length = 3) :
    translateXY a a1 a2 = .ok (specTranslated a1 a2 a) := by
  obtain ⟨x, y, z, t, harr⟩ := exists_three_cons a.coord.coordinate_array (le_of_eq h.symm)
  have ht : t = [] := by
    rw [harr] at h
    simpa using h
  subst ht
  simp [translateXY, coordAdd, addVals, Except.map, specTranslated, harr]

theorem repeat_grid_ok {α : Type} [LinearOrderedField α] (atoms : List (Atom α))
    (pairs : List (ℤ × ℤ)) (h3 : ∀ a ∈ atoms, a.coord.coordinate_array.length = 3) :
    pyMapComp (fun p => translateXY p.2 p.1.1 p.1.2)
        (pairs.flatMap fun p => atoms.map fun atom => (p, atom)) =
      .ok (pairs.flatMap fun p => atoms.map (specTranslated p.1 p.2)) := by
  have hok := pyMapComp_ok_of_forall (fun p => translateXY p.2 p.1.1 p.1.2)
    (fun p => specTranslated p.1.1 p.1.2 p.2)
    (pairs.flatMap fun p => atoms.map fun atom => (p, atom)) ?_
  · rw [hok]
    congr 1
    rw [map_flatMap_helper]
    congr 1
    funext p
    rw [List.map_map]
    rfl
  · intro x hx
    simp only [List.mem_flatMap, List.mem_map] at hx
    obtain ⟨p, _, atom, hatom, rfl⟩ := hx
    exact translateXY_ok atom p.1 p.2 (h3 atom hatom)

theorem gridPairsInclusive_length (n : ℕ) :
    (gridPairsInclusive n).length = (2 * n + 1) ^ 2 := by
  unfold gridPairsInclusive
  rw [flatMap_map_length (fun a1 a2 => (a1, a2))]
  rw [pyRange_length]
  have : ((n : ℤ) + 1 - -(n : ℤ)).toNat = 2 * n + 1 := by omega
  rw [this, pow_two]

theorem gridPairsExclusive_length (n : ℕ) :
    (gridPairsExclusive n).length = (2 * n) ^ 2 := by
  unfold gridPairsExclusive
  rw [flatMap_map_length (fun a1 a2 => (a1, a2))]
  rw [pyRange_length]
  have : ((n : ℤ) - -(n : ℤ)).toNat = 2 * n := by omega
  rw [this, pow_two]

/-- **C1, counterexample.**  The claim asserts both copies of
`repeat_atom_grid_xy` tile over `-n ≤ a1, a2 ≤ n` inclusive, with output
length `len(A)·(2n+1)²`; the copy in `generate_2D_chiral_cell.py` uses
`xrange(-n, n)` and on one atom with `n = 1` produces `4` atoms, not `9`. -/
theorem repeat_atom_grid_xy_chiral_cex :
    Except.map List.length (repeat_atom_grid_xy_chiral [atomSi] 1) = .ok 4 ∧
      Except.map List.length (repeat_atom_grid_xy_chiral [atomSi] 1) ≠ .ok 9 := by
  constructor <;> decide

/-- **C1, amended.**  For every 3-component atom list and every `n ≥ 0`:
the `manipulate_cell.py` copy of `repeat_atom_grid_xy` returns one translated
atom per source atom and integer pair `(a1, a2)` with `-n ≤ a1, a2 ≤ n`
inclusive (output length `len(A)·(2n+1)²`); the copy in
`generate_2D_chiral_cell.py` does the same over `-n ≤ a1, a2 ≤ n-1` (output
length `len(A)·(2n)²`).  In both, each output atom keeps its source atom's
`znucl`, system tag and third coordinate component, and its coordinate is the
source coordinate plus `(a1, a2, 0)` (the shape of `specTranslated`). -/
theorem repeat_atom_grid_xy_spec {α : Type} [LinearOrderedField α]
    (atoms : List (Atom α)) (n : ℕ)
    (h3 : ∀ a ∈ atoms, a.coord.coordinate_array.length = 3) :
    (repeat_atom_grid_xy atoms n =
        .ok ((gridPairsInclusive n).flatMap fun p => atoms.map (specTranslated p.1 p.2)) ∧
      ∃ L, repeat_atom_grid_xy atoms n = .ok L ∧
        L.length = atoms.length * (2 * n + 1) ^ 2) ∧
    (repeat_atom_grid_xy_chiral atoms n =
        .ok ((gridPairsExclusive n).flatMap fun p => atoms.map (specTranslated p.1 p.2)) ∧
      ∃ L, repeat_atom_grid_xy_chiral atoms n = .ok L ∧
        L.length = atoms.length * (2 * n) ^ 2) := by
  have hinc := repeat_grid_ok atoms (gridPairsInclusive n) h3
  have hexc := repeat_grid_ok atoms (gridPairsExclusive n) h3
  refine ⟨⟨hinc, _, hinc, ?_⟩, ⟨hexc, _, hexc, ?_⟩⟩
  · exact (flatMap_map_length (fun p => specTranslated p.1 p.2) (gridPairsInclusive n)
      atoms).trans (by rw [gridPairsInclusive_length, Nat.mul_comm])
  · exact (flatMap_map_length (fun p => specTranslated p.1 p.2) (gridPairsExclusive n)
      atoms).trans (by rw [gridPairsExclusive_length, Nat.mul_comm])

/-- **C1, witness.**  One atom, `n = 1`: the `manipulate_cell.py` copy yields
`9` atoms. -/
theorem repeat_atom_grid_xy_spec_witness :
    ∃ L, repeat_atom_grid_xy [atomSi] 1 = .ok L ∧ L.length = 1 * (2 * 1 + 1) ^ 2 :=
  (repeat_atom_grid_xy_spec [atomSi] 1 (by decide)).1.2

section DopeLemmas

variable {α : Type} [LinearOrderedField α]

theorem dopeOne_none_iff (d : Atom α) :
    ∀ l : List (Atom α), dopeOne d l = none ↔ ∀ a ∈ l, a.coord ≠ d.coord
  | [] => by simp [dopeOne]
  | a :: rest => by
    by_cases hc : a.coord = d.coord
    · simp [dopeOne, hc]
    · constructor
      · intro h
        have hr : dopeOne d rest = none := by
          cases hr : dopeOne d rest with
          | none => rfl
          | some r => simp [dopeOne, hc, hr] at h
        intro x hx
        rcases List.mem_cons.mp hx with rfl | hx'
        · exact hc
        · exact (dopeOne_none_iff d rest).mp hr x hx'
      · intro hall
        have hr : dopeOne d rest = none :=
          (dopeOne_none_iff d rest).mpr fun x hx => hall x (List.mem_cons_of_mem _ hx)
        simp [dopeOne, hc, hr]

theorem dopeOne_coords (d : Atom α) :
    ∀ l l' : List (Atom α), dopeOne d l = some l' →
      l'.map (fun a => a.coord) = l.map (fun a => a.coord)
  | [], _, h => by simp [dopeOne] at h
  | a :: rest, l', h => by
    by_cases hc : a.coord = d.coord
    · simp [dopeOne, hc] at h
      subst h
      simp [hc]
    · simp [dopeOne, hc] at h
      obtain ⟨r, hr, rfl⟩ := h
      simp [dopeOne_coords d rest r hr]

theorem dopeOne_znucl (d : Atom α) :
    ∀ l l' : List (Atom α), dopeOne d l = some l' → ∀ i : ℕ,
      (l'.getD i dummyAtomGen).znucl = (l.getD i dummyAtomGen).znucl ∨
        ((l.getD i dummyAtomGen).coord = d.coord ∧
          (l'.getD i dummyAtomGen).znucl = d.znucl)
  | [], _, h, _ => by simp [dopeOne] at h
  | a :: rest, l', h, i => by
    by_cases hc : a.coord = d.coord
    · simp [dopeOne, hc] at h
      subst h
      match i with
      | 0 => exact .inr ⟨hc, rfl⟩
      | j + 1 => simp
    · simp [dopeOne, hc] at h
      obtain ⟨r, hr, rfl⟩ := h
      match i with
      | 0 => exact .inl rfl
      | j + 1 =>
        simpa using dopeOne_znucl d rest r hr j

omit [LinearOrderedField α] in
theorem coords_map_getD {l1 l2 : List (Atom α)}
    (h : l1.map (fun a => a.coord) = l2.map (fun a => a.coord)) (i : ℕ) :
    (l1.getD i dummyAtomGen).coord = (l2.getD i dummyAtomGen).coord := by
  have hmap : (l1.map (fun a => a.coord)).getD i dummyAtomGen.coord =
      (l2.map (fun a => a.coord)).getD i dummyAtomGen.coord := by rw [h]
  simpa [List.getD_map] using hmap

omit [LinearOrderedField α] in
theorem coords_no_match_iff {l1 l2 : List (Atom α)}
    (h : l1.map (fun a => a.coord) = l2.map (fun a => a.coord)) (c : Coordinate α) :
    (∀ a ∈ l1, a.coord ≠ c) ↔ (∀ a ∈ l2, a.coord ≠ c) := by
  have key : ∀ l : List (Atom α),
      (∀ a ∈ l, a.coord ≠ c) ↔ c ∉ l.map (fun a => a.coord) := by
    intro l
    constructor
    · intro hall hmem
      obtain ⟨a, ha, hac⟩ := List.mem_map.mp hmem
      exact hall a ha hac
    · intro hn a ha hc2
      exact hn (List.mem_map.mpr ⟨a, ha, hc2⟩)
  rw [key, key, h]

theorem dope_atoms_ok_coords (ds : List (Atom α)) :
    ∀ atoms res : List (Atom α), dope_atoms atoms ds = .ok res →
      res.map (fun a => a.coord) = atoms.map (fun a => a.coord) := by
  induction ds with
  | nil =>
    intro atoms res h
    simp [dope_atoms] at h
    rw [h]
  | cons d ds ih =>
    intro atoms res h
    cases hd : dopeOne d atoms with
    | none => simp [dope_atoms, hd] at h
    | some doped =>
      simp [dope_atoms, hd] at h
      exact (ih doped res h).trans (dopeOne_coords d atoms doped hd)

theorem dope_atoms_error_iff (ds : List (Atom α)) :
    ∀ atoms : List (Atom α),
      (∃ e, dope_atoms atoms ds = .error e) ↔
        ∃ d ∈ ds, ∀ a ∈ atoms, a.coord ≠ d.coord := by
  induction ds with
  | nil => intro atoms; simp [dope_atoms]
  | cons d ds ih =>
    intro atoms
    cases hd : dopeOne d atoms with
    | none =>
      have hno := (dopeOne_none_iff d atoms).mp hd
      simp only [dope_atoms, hd]
      constructor
      · intro _
        exact ⟨d, List.mem_cons_self d ds, hno⟩
      · intro _
        exact ⟨(d, atoms), rfl⟩
    | some doped =>
      have hmatch : ¬ ∀ a ∈ atoms, a.coord ≠ d.coord := by
        rw [← dopeOne_none_iff d atoms]
        simp [hd]
      have hcoords := dopeOne_coords d atoms doped hd
      simp only [dope_atoms, hd]
      rw [ih doped]
      constructor
      · rintro ⟨d2, hd2, hno⟩
        exact ⟨d2, List.mem_cons_of_mem d hd2,
          (coords_no_match_iff hcoords d2.coord).mp hno⟩
      · rintro ⟨d2, hd2, hno⟩
        rcases List.mem_cons.mp hd2 with rfl | hd2'
        · exact absurd hno hmatch
        · exact ⟨d2, hd2', (coords_no_match_iff hcoords d2.coord).mpr hno⟩

theorem dope_atoms_error_first (ds : List (Atom α)) :
    ∀ atoms : List (Atom α), ∀ d st,
      dope_atoms atoms ds = .error (d, st) →
        (∀ a ∈ atoms, a.coord ≠ d.coord) ∧
          ∃ pre post, ds = pre ++ d :: post ∧ dope_atoms atoms pre = .ok st := by
  induction ds with
  | nil => intro atoms d st h; simp [dope_atoms] at h
  | cons e ds ih =>
    intro atoms d st h
    cases hd : dopeOne e atoms with
    | none =>
      simp only [dope_atoms, hd] at h
      obtain ⟨rfl, rfl⟩ : e = d ∧ atoms = st := by
        have := Except.error.inj h
        exact ⟨congrArg Prod.fst this, congrArg Prod.snd this⟩
      exact ⟨(dopeOne_none_iff _ atoms).mp hd, [], ds, rfl, rfl⟩
    | some doped =>
      simp only [dope_atoms, hd] at h
      obtain ⟨hno, pre, post, rfl, hok⟩ := ih doped d st h
      have hcoords := dopeOne_coords e atoms doped hd
      refine ⟨(coords_no_match_iff hcoords d.coord).mp hno, e :: pre, post, rfl, ?_⟩
      simp [dope_atoms, hd, hok]

theorem dopeOne_getD_eq (d : Atom α) :
    ∀ l l' : List (Atom α), dopeOne d l = some l' → ∀ i : ℕ,
      (l'.getD i dummyAtomGen).znucl =
        if (l.getD i dummyAtomGen).coord = d.coord ∧
            (∀ j < i, (l.getD j dummyAtomGen).coord ≠ d.coord) ∧ i < l.length then
          d.znucl
        else (l.getD i dummyAtomGen).znucl
  | [], _, h, _ => by simp [dopeOne] at h
  | a :: rest, l', h, i => by
    by_cases hc : a.coord = d.coord
    · simp only [dopeOne, if_pos hc] at h
      obtain rfl := Option.some.inj h
      match i with
      | 0 =>
        rw [if_pos ⟨hc, fun j hj => absurd hj (Nat.not_lt_zero j), Nat.succ_pos _⟩]
        rfl
      | j + 1 =>
        rw [if_neg]
        · simp [List.getD_cons_succ]
        · rintro ⟨-, hall, -⟩
          exact hall 0 (Nat.succ_pos j) hc
    · simp only [dopeOne, if_neg hc] at h
      obtain ⟨r, hr, rfl⟩ := Option.map_eq_some'.mp h
      match i with
      | 0 =>
        simp only [List.getD_cons_zero]
        rw [if_neg]
        rintro ⟨hc0, -, -⟩
        exact hc hc0
      | j + 1 =>
        simp only [List.getD_cons_succ]
        rw [dopeOne_getD_eq d rest r hr j]
        by_cases hcond : (rest.getD j dummyAtomGen).coord = d.coord ∧
            (∀ k < j, (rest.getD k dummyAtomGen).coord ≠ d.coord) ∧ j < rest.length
        · rw [if_pos hcond, if_pos]
          refine ⟨hcond.1, fun k hk => ?_, Nat.succ_lt_succ hcond.2.2⟩
          match k with
          | 0 => simpa using hc
          | k + 1 =>
            simp only [List.getD_cons_succ]
            exact hcond.2.1 k (Nat.lt_of_succ_lt_succ hk)
        · rw [if_neg hcond, if_neg]
          rintro ⟨h1, h2, h3⟩
          refine hcond ⟨by simpa using h1, fun k hk => ?_, Nat.lt_of_succ_lt_succ h3⟩
          have := h2 (k + 1) (Nat.succ_lt_succ hk)
          simpa using this

theorem dope_atoms_ok_overwrite (ds : List (Atom α)) :
    ∀ atoms res : List (Atom α), dope_atoms atoms ds = .ok res → ∀ i : ℕ,
      i < atoms.length →
      (res.getD i dummyAtomGen).znucl =
        if ∀ j < i, (atoms.getD j dummyAtomGen).coord ≠ (atoms.getD i dummyAtomGen).coord
        then
          ((ds.filter fun d2 =>
              decide (d2.coord = (atoms.getD i dummyAtomGen).coord)).getLast?).elim
            (atoms.getD i dummyAtomGen).znucl (fun d2 => d2.znucl)
        else (atoms.getD i dummyAtomGen).znucl := by
  induction ds with
  | nil =>
    intro atoms res h i _
    simp only [dope_atoms] at h
    obtain rfl : atoms = res := Except.ok.inj h
    simp only [List.filter_nil, List.getLast?_nil, Option.elim]
    rw [ite_self]
  | cons d ds ih =>
    intro atoms res h i hi
    cases hd : dopeOne d atoms with
    | none => simp [dope_atoms, hd] at h
    | some doped =>
      simp only [dope_atoms, hd] at h
      have hcoords := dopeOne_coords d atoms doped hd
      have hlen : doped.length = atoms.length := by
        have := congrArg List.length hcoords
        simpa using this
      have hgetD : ∀ k, (doped.getD k dummyAtomGen).coord =
          (atoms.getD k dummyAtomGen).coord := coords_map_getD hcoords
      have hstep := dopeOne_getD_eq d atoms doped hd i
      have hih := ih doped res h i (by rw [hlen]; exact hi)
      by_cases hfa : ∀ j < i,
          (atoms.getD j dummyAtomGen).coord ≠ (atoms.getD i dummyAtomGen).coord
      · have hfd : ∀ j < i,
            (doped.getD j dummyAtomGen).coord ≠ (doped.getD i dummyAtomGen).coord := by
          intro j hj
          rw [hgetD j, hgetD i]
          exact hfa j hj
        rw [if_pos hfd] at hih
        rw [if_pos hfa]
        by_cases hcd : d.coord = (atoms.getD i dummyAtomGen).coord
        · have hdz : (doped.getD i dummyAtomGen).znucl = d.znucl := by
            rw [hstep, if_pos]
            exact ⟨hcd.symm, fun j hj hj2 => hfa j hj (hj2.trans hcd), hi⟩
          rw [List.filter_cons, if_pos (by simpa using hcd)]
          cases hfil : ds.filter fun d2 =>
              decide (d2.coord = (atoms.getD i dummyAtomGen).coord) with
          | nil =>
            rw [hgetD i, hfil] at hih
            simp only [List.getLast?_nil, Option.elim] at hih
            rw [hih, hdz]
            rfl
          | cons x xs =>
            rw [hgetD i, hfil] at hih
            rw [hih, List.getLast?_cons_cons]
            cases hlast : (x :: xs).getLast? with
            | none => simp at hlast
            | some y => simp [Option.elim]
        · have hdz : (doped.getD i dummyAtomGen).znucl =
              (atoms.getD i dummyAtomGen).znucl := by
            rw [hstep, if_neg]
            rintro ⟨hc1, -, -⟩
            exact hcd hc1.symm
          rw [List.filter_cons, if_neg (by simpa using hcd)]
          rw [hgetD i] at hih
          rw [hih, hdz]
      · have hfd : ¬ ∀ j < i,
            (doped.getD j dummyAtomGen).coord ≠ (doped.getD i dummyAtomGen).coord := by
          intro hall
          exact hfa fun j hj => by
            have := hall j hj
            rw [hgetD j, hgetD i] at this
            exact this
        rw [if_neg hfd] at hih
        rw [if_neg hfa]
        have hdz : (doped.getD i dummyAtomGen).znucl =
            (atoms.getD i dummyAtomGen).znucl := by
          rw [hstep, if_neg]
          rintro ⟨hc1, hall, -⟩
          exact hfa fun j hj hj2 => hall j hj (hj2.trans hc1)
        rw [hih, hdz]

theorem dope_atoms_ok_znucl (ds : List (Atom α)) :
    ∀ atoms res : List (Atom α), dope_atoms atoms ds = .ok res → ∀ i : ℕ,
      (res.getD i dummyAtomGen).znucl = (atoms.getD i dummyAtomGen).znucl ∨
        ∃ d ∈ ds, d.coord = (atoms.getD i dummyAtomGen).coord ∧
          (res.getD i dummyAtomGen).znucl = d.znucl := by
  induction ds with
  | nil =>
    intro atoms res h i
    simp [dope_atoms] at h
    rw [h]
    exact .inl rfl
  | cons d ds ih =>
    intro atoms res h i
    cases hd : dopeOne d atoms with
    | none => simp [dope_atoms, hd] at h
    | some doped =>
      simp only [dope_atoms, hd] at h
      have hstep := dopeOne_znucl d atoms doped hd i
      have hgetD : (doped.getD i dummyAtomGen).coord = (atoms.getD i dummyAtomGen).coord :=
        coords_map_getD (dopeOne_coords d atoms doped hd) i
      rcases ih doped res h i with hkeep | ⟨d2, hd2, hc2, hz2⟩
      · rcases hstep with hkeep2 | ⟨hc, hz⟩
        · exact .inl (hkeep.trans hkeep2)
        · exact .inr ⟨d, List.mem_cons_self d ds, hc.symm, hkeep.trans hz⟩
      · exact .inr ⟨d2, List.mem_cons_of_mem d hd2, hc2.trans hgetD, hz2⟩

end DopeLemmas

/-- **C5.**  `dope_atoms` raises, naming the unmatched dopant, exactly when
some dopant's Coordinate equals no atom's Coordinate (doping never changes
coordinates, so the sequential scan fails exactly for the dopants unmatched
against the original list); when it raises on the first unmatched dopant the
earlier dopants' substitutions have already been applied to the list the error
aborts with (the operation is not atomic); on success all coordinates are
unchanged and each atom's final `znucl` is determined position by position:
the first atom at its coordinate is matched, and its `znucl` is overwritten by
its dopant's `znucl` — the last dopant at that coordinate, since each dopant
overwrites the same first-matching atom — while atoms with no matching dopant,
and atoms shadowed by an earlier atom at the same coordinate, keep their
original `znucl`.  (The plain `znucl`-provenance disjunction is kept as a
corollary-style conjunct.) -/
theorem dope_atoms_spec {α : Type} [LinearOrderedField α]
    (atoms ds : List (Atom α)) :
    ((∃ e, dope_atoms atoms ds = .error e) ↔
        ∃ d ∈ ds, ∀ a ∈ atoms, a.coord ≠ d.coord) ∧
      (∀ d st, dope_atoms atoms ds = .error (d, st) →
        (∀ a ∈ atoms, a.coord ≠ d.coord) ∧
          ∃ pre post, ds = pre ++ d :: post ∧ dope_atoms atoms pre = .ok st) ∧
      (∀ res, dope_atoms atoms ds = .ok res →
        res.map (fun a => a.coord) = atoms.map (fun a => a.coord) ∧
          (∀ i : ℕ,
            (res.getD i dummyAtomGen).znucl = (atoms.getD i dummyAtomGen).znucl ∨
              ∃ d ∈ ds, d.coord = (atoms.getD i dummyAtomGen).coord ∧
                (res.getD i dummyAtomGen).znucl = d.znucl) ∧
          ∀ i : ℕ, i < atoms.length →
            (res.getD i dummyAtomGen).znucl =
              if ∀ j < i, (atoms.getD j dummyAtomGen).coord ≠
                  (atoms.getD i dummyAtomGen).coord
              then
                ((ds.filter fun d2 =>
                    decide (d2.coord = (atoms.getD i dummyAtomGen).coord)).getLast?).elim
                  (atoms.getD i dummyAtomGen).znucl (fun d2 => d2.znucl)
              else (atoms.getD i dummyAtomGen).znucl) :=
  ⟨dope_atoms_error_iff ds atoms,
    fun d st h => dope_atoms_error_first ds atoms d st h,
    fun res h => ⟨dope_atoms_ok_coords ds atoms res h, dope_atoms_ok_znucl ds atoms res h,
      dope_atoms_ok_overwrite ds atoms res h⟩⟩

/-- **C5, witness.**  The spec's example: one silicon atom at the origin doped
to boron succeeds; a dopant at a coordinate matching no atom raises. -/
theorem dope_atoms_spec_witness :
    dope_atoms [atomSi] [(⟨5, ⟨[0, 0, 0], "reduced"⟩⟩ : Atom ℚ)] =
        .ok [⟨5, ⟨[0, 0, 0], "reduced"⟩⟩] ∧
      ∃ e, dope_atoms [atomSi] [(⟨5, ⟨[1, 0, 0], "reduced"⟩⟩ : Atom ℚ)] = .error e :=
  ⟨by decide,
    (dope_atoms_spec [atomSi] [⟨5, ⟨[1, 0, 0], "reduced"⟩⟩]).1.mpr (by decide)⟩


theorem subVals_eq_zipWith {α : Type} [LinearOrderedField α] :
    ∀ l1 l2 : List α, l1.length ≤ l2.length →
      subVals l1 l2 = .ok (List.zipWith (fun x y => x - y) l1 l2)
  | [], l2, _ => by cases l2 <;> rfl
  | _ :: _, [], h => by simp at h
  | x :: xs, y :: ys, h => by
    rw [List.zipWith_cons_cons]
    simp [subVals, Except.map, subVals_eq_zipWith xs ys (Nat.succ_le_succ_iff.mp h)]

theorem mem_indexPairs {n i j : ℕ} : (i, j) ∈ indexPairs n ↔ i < j ∧ j < n := by
  simp only [indexPairs, List.mem_flatMap, List.mem_map, List.mem_range]
  constructor
  · rintro ⟨a, ha, b, hb, heq⟩
    obtain ⟨rfl, rfl⟩ : a = i ∧ b = j :=
      ⟨congrArg Prod.fst heq, congrArg Prod.snd heq⟩
    rw [List.mem_range'] at hb
    obtain ⟨k, hk, rfl⟩ := hb
    omega
  · rintro ⟨hij, hjn⟩
    refine ⟨i, by omega, j, ?_, rfl⟩
    rw [List.mem_range']
    exact ⟨j - (i + 1), by omega, by omega⟩

theorem collisionStep_ok (atoms : List (Atom ℝ)) (t : ℝ) (s : String)
    (hs : ∀ a ∈ atoms, a.coord.coordinate_system = s)
    (hl : ∀ a ∈ atoms, a.coord.coordinate_array.length = 3) :
    ∀ p ∈ indexPairs atoms.length,
      collisionStep atoms t p =
        .ok (if coordNorm (coordDiffSpec (atoms.getD p.1 dummyAtom).coord
            (atoms.getD p.2 dummyAtom).coord) < t then
          [(atoms.getD p.1 dummyAtom, atoms.getD p.2 dummyAtom)]
        else []) := by
  rintro ⟨i, j⟩ hp
  obtain ⟨hij, hjn⟩ := mem_indexPairs.mp hp
  have hi : i < atoms.length := lt_trans hij hjn
  have hmi : atoms.getD i dummyAtom ∈ atoms := by
    rw [List.getD_eq_getElem?_getD, List.getElem?_eq_getElem hi]
    exact List.getElem_mem hi
  have hmj : atoms.getD j dummyAtom ∈ atoms := by
    rw [List.getD_eq_getElem?_getD, List.getElem?_eq_getElem hjn]
    exact List.getElem_mem hjn
  have hne : ¬ (atoms.getD i dummyAtom).coord.coordinate_system ≠
      (atoms.getD j dummyAtom).coord.coordinate_system := by
    rw [hs _ hmi, hs _ hmj]
    exact fun h => h rfl
  have hlen : (atoms.getD i dummyAtom).coord.coordinate_array.length ≤
      (atoms.getD j dummyAtom).coord.coordinate_array.length := by
    rw [hl _ hmi, hl _ hmj]
  have hsub : coordSub (atoms.getD i dummyAtom).coord
      (.coordinate (atoms.getD j dummyAtom).coord) =
        .ok (coordDiffSpec (atoms.getD i dummyAtom).coord
          (atoms.getD j dummyAtom).coord) := by
    simp only [coordSub, if_neg hne, subVals_eq_zipWith _ _ hlen, Except.map, coordDiffSpec]
  unfold collisionStep
  rw [hsub]
  by_cases hn : coordNorm (coordDiffSpec (atoms.getD i dummyAtom).coord
      (atoms.getD j dummyAtom).coord) < t
  · simp only [Bind.bind, Except.bind, if_pos hn]
    rfl
  · simp only [Bind.bind, Except.bind, if_neg hn]
    rfl

theorem flatten_map_if {A B : Type} (l : List A) (c : A → Prop) [DecidablePred c]
    (h : A → B) :
    (l.map fun p => if c p then [h p] else []).flatten =
      l.filterMap fun p => if c p then some (h p) else none := by
  induction l with
  | nil => rfl
  | cons a t ih =>
    by_cases hc : c a <;> simp [hc, ih]

/-- **C8.**  For a list of atoms sharing one coordinate system and 3-component
coordinates, `get_collisions` yields exactly the pairs `(atoms[i], atoms[j])`
with `i < j` whose coordinate-difference norm is strictly below the threshold,
and no others, in loop order. -/
theorem get_collisions_spec (atoms : List (Atom ℝ)) (t : ℝ) (s : String)
    (hs : ∀ a ∈ atoms, a.coord.coordinate_system = s)
    (hl : ∀ a ∈ atoms, a.coord.coordinate_array.length = 3) :
    get_collisions atoms t = .ok (collisionList atoms t) ∧
      ∀ pr : Atom ℝ × Atom ℝ,
        pr ∈ collisionList atoms t ↔
          ∃ i j, i < j ∧ j < atoms.length ∧
            pr = (atoms.getD i dummyAtom, atoms.getD j dummyAtom) ∧
            coordNorm (coordDiffSpec (atoms.getD i dummyAtom).coord
              (atoms.getD j dummyAtom).coord) < t := by
  constructor
  · unfold get_collisions
    rw [pyMapComp_ok_of_forall (collisionStep atoms t)
      (fun p => if coordNorm (coordDiffSpec (atoms.getD p.1 dummyAtom).coord
          (atoms.getD p.2 dummyAtom).coord) < t then
        [(atoms.getD p.1 dummyAtom, atoms.getD p.2 dummyAtom)]
      else []) (indexPairs atoms.length) (collisionStep_ok atoms t s hs hl)]
    unfold collisionList
    rw [Except.map, flatten_map_if]
  · intro pr
    unfold collisionList
    rw [List.mem_filterMap]
    constructor
    · rintro ⟨⟨i, j⟩, hp, hifp⟩
      obtain ⟨hij, hjn⟩ := mem_indexPairs.mp hp
      by_cases hn : coordNorm (coordDiffSpec (atoms.getD i dummyAtom).coord
          (atoms.getD j dummyAtom).coord) < t
      · rw [if_pos hn] at hifp
        exact ⟨i, j, hij, hjn, (Option.some.inj hifp).symm, hn⟩
      · rw [if_neg hn] at hifp
        exact absurd hifp Option.noConfusion
    · rintro ⟨i, j, hij, hjn, rfl, hn⟩
      exact ⟨(i, j), mem_indexPairs.mpr ⟨hij, hjn⟩, if_pos hn⟩

/-- **C8, witness.**  The spec's example: atoms at `[0,0,0]` and
`[0.0001,0,0]` with the default threshold `0.001` yield exactly the one pair;
atoms at `[0,0,0]` and `[0.5,0,0]` yield none. -/
theorem get_collisions_spec_witness :
    get_collisions [⟨14, ⟨[0, 0, 0], "reduced"⟩⟩, ⟨14, ⟨[1/10000, 0, 0], "reduced"⟩⟩]
        (1/1000) =
      .ok [((⟨14, ⟨[0, 0, 0], "reduced"⟩⟩ : Atom ℝ), ⟨14, ⟨[1/10000, 0, 0], "reduced"⟩⟩)] ∧
    get_collisions [⟨14, ⟨[0, 0, 0], "reduced"⟩⟩, ⟨14, ⟨[1/2, 0, 0], "reduced"⟩⟩]
        (1/1000) =
      .ok [] := by
  have hev : ∀ x : ℝ, 0 ≤ x →
      coordNorm (coordDiffSpec (⟨[0, 0, 0], "reduced"⟩ : Coordinate ℝ)
        ⟨[x, 0, 0], "reduced"⟩) = x := by
    intro x hx
    unfold coordNorm coordDiffSpec
    have harr : (List.map (fun v => v * v)
        (List.zipWith (fun a b => a - b) ([0, 0, 0] : List ℝ) [x, 0, 0])).sum = x ^ 2 := by
      simp
      ring
    rw [harr]
    exact Real.sqrt_sq hx
  have hip : indexPairs 2 = [(0, 1)] := by decide
  constructor
  · rw [(get_collisions_spec _ (1/1000) "reduced" (by decide) (by decide)).1]
    unfold collisionList
    simp only [List.length_cons, List.length_nil, Nat.zero_add, Nat.reduceAdd, hip]
    rw [List.filterMap]
    simp only [List.getD_eq_getElem?_getD, List.getElem?_cons_zero, Option.getD_some,
      List.getElem?_cons_succ, List.filterMap_nil]
    rw [hev (1/10000) (by norm_num), if_pos (by norm_num : (1:ℝ)/10000 < 1/1000)]
  · rw [(get_collisions_spec _ (1/1000) "reduced" (by decide) (by decide)).1]
    unfold collisionList
    simp only [List.length_cons, List.length_nil, Nat.zero_add, Nat.reduceAdd, hip]
    rw [List.filterMap]
    simp only [List.getD_eq_getElem?_getD, List.getElem?_cons_zero, Option.getD_some,
      List.getElem?_cons_succ, List.filterMap_nil]
    rw [hev (1/2) (by norm_num), if_neg (by norm_num : ¬ (1:ℝ)/2 < 1/1000)]

theorem mulVals_eq_zipWith {α : Type} [LinearOrderedField α] :
    ∀ l1 l2 : List α, l1.length ≤ l2.length →
      mulVals l1 l2 = .ok (List.zipWith (fun x y => x * y) l1 l2)
  | [], l2, _ => by cases l2 <;> rfl
  | _ :: _, [], h => by simp at h
  | x :: xs, y :: ys, h => by
    rw [List.zipWith_cons_cons]
    simp [mulVals, Except.map, mulVals_eq_zipWith xs ys (Nat.succ_le_succ_iff.mp h)]

theorem matVecMul3_ok (m : Matrix (Fin 3) (Fin 3) ℝ) (arr : List ℝ)
    (h : arr.length = 3) :
    matVecMul3 m arr =
      .ok [m 0 0 * arr.getD 0 0 + m 0 1 * arr.getD 1 0 + m 0 2 * arr.getD 2 0,
           m 1 0 * arr.getD 0 0 + m 1 1 * arr.getD 1 0 + m 1 2 * arr.getD 2 0,
           m 2 0 * arr.getD 0 0 + m 2 1 * arr.getD 1 0 + m 2 2 * arr.getD 2 0] := by
  obtain ⟨x, y, z, t, rfl⟩ := exists_three_cons arr (le_of_eq h.symm)
  have ht : t = [] := by simpa using h
  subst ht
  rfl

theorem repeat_chiral_three (atoms : List (Atom ℝ)) (n : ℕ)
    (h3 : ∀ a ∈ atoms, a.coord.coordinate_array.length = 3) :
    ∃ R, repeat_atom_grid_xy_chiral atoms n = .ok R ∧
      ∀ b ∈ R, b.coord.coordinate_array.length = 3 := by
  refine ⟨_, repeat_grid_ok atoms (gridPairsExclusive n) h3, ?_⟩
  intro b hb
  simp only [List.mem_flatMap, List.mem_map] at hb
  obtain ⟨p, _, a, _, rfl⟩ := hb
  rfl

theorem rotate_three (atoms : List (Atom ℝ)) (angle : ℝ) (basis : Matrix (Fin 3) (Fin 3) ℝ)
    (hdet : basis.det ≠ 0)
    (h3 : ∀ a ∈ atoms, a.coord.coordinate_array.length = 3) :
    ∃ R, rotate_atom_grid_xy atoms angle basis = .ok R ∧
      ∀ b ∈ R, b.coord.coordinate_array.length = 3 := by
  set m := basis⁻¹ * xy_rotation_matrix angle * basis with hm
  refine ⟨atoms.map fun a =>
    ⟨a.znucl,
      ⟨[m 0 0 * a.coord.coordinate_array.getD 0 0 + m 0 1 * a.coord.coordinate_array.getD 1 0
          + m 0 2 * a.coord.coordinate_array.getD 2 0,
        m 1 0 * a.coord.coordinate_array.getD 0 0 + m 1 1 * a.coord.coordinate_array.getD 1 0
          + m 1 2 * a.coord.coordinate_array.getD 2 0,
        m 2 0 * a.coord.coordinate_array.getD 0 0 + m 2 1 * a.coord.coordinate_array.getD 1 0
          + m 2 2 * a.coord.coordinate_array.getD 2 0],
        a.coord.coordinate_system⟩⟩, ?_, ?_⟩
  · unfold rotate_atom_grid_xy
    rw [if_neg hdet, ← hm]
    apply pyMapComp_ok_of_forall
    intro a ha
    rw [matVecMul3_ok m _ (h3 a ha)]
    rfl
  · intro b hb
    simp only [List.mem_map] at hb
    obtain ⟨a, _, rfl⟩ := hb
    rfl

theorem dilate_three (atoms : List (Atom ℝ)) (d : ℝ)
    (h3 : ∀ a ∈ atoms, a.coord.coordinate_array.length = 3) :
    ∃ R, dilate_atom_grid_xy atoms d = .ok R ∧
      ∀ b ∈ R, b.coord.coordinate_array.length = 3 := by
  refine ⟨atoms.map fun a =>
    ⟨a.znucl,
      ⟨List.zipWith (fun x y => x * y) a.coord.coordinate_array [d, d, 1],
        a.coord.coordinate_system⟩⟩, ?_, ?_⟩
  · unfold dilate_atom_grid_xy
    apply pyMapComp_ok_of_forall
    intro a ha
    have hle : a.coord.coordinate_array.length ≤ ([d, d, 1] : List ℝ).length := by
      rw [h3 a ha]
      simp
    simp only [coordMul, mulVals_eq_zipWith _ _ hle, Except.map]
  · intro b hb
    simp only [List.mem_map] at hb
    obtain ⟨a, ha, rfl⟩ := hb
    simp [List.length_zipWith, h3 a ha]

theorem is_inside_ok3 {α : Type} [LinearOrderedField α] (c : Coordinate α)
    (h : c.coordinate_array.length = 3) :
    is_inside_unit_cell c = .ok (insideBool c) := by
  obtain ⟨x, y, z, t, harr⟩ := exists_three_cons c.coordinate_array (le_of_eq h.symm)
  have ht : t = [] := by
    rw [harr] at h
    simpa using h
  subst ht
  obtain ⟨arr, sys⟩ := c
  simp only at harr
  subst harr
  show is_inside_unit_cell ⟨[x, y, z], sys⟩ = .ok (insideBool ⟨[x, y, z], sys⟩)
  by_cases h0 : x < 0
  · simp [is_inside_unit_cell, pyGet, insideBool, Bind.bind, Except.bind, Pure.pure,
      Except.pure, h0, not_le.mpr h0]
  · by_cases h0' : (1 : α) ≤ x
    · simp [is_inside_unit_cell, pyGet, insideBool, Bind.bind, Except.bind, Pure.pure,
        Except.pure, h0, h0', not_lt.mpr h0']
    · by_cases h1 : y < 0
      · simp [is_inside_unit_cell, pyGet, insideBool, Bind.bind, Except.bind, Pure.pure,
          Except.pure, h0, h0', h1, not_le.mpr h1, not_lt.mp h0, lt_of_not_le h0']
      · by_cases h1' : (1 : α) ≤ y
        · simp [is_inside_unit_cell, pyGet, insideBool, Bind.bind, Except.bind, Pure.pure,
            Except.pure, h0, h0', h1, h1', not_lt.mpr h1']
        · by_cases h2 : z < 0
          · simp [is_inside_unit_cell, pyGet, insideBool, Bind.bind, Except.bind, Pure.pure,
              Except.pure, h0, h0', h1, h1', h2, not_le.mpr h2]
          · simp [is_inside_unit_cell, pyGet, insideBool, Bind.bind, Except.bind, Pure.pure,
              Except.pure, h0, h0', h1, h1', h2, not_lt.mp h0, not_lt.mp h1, not_lt.mp h2,
              lt_of_not_le h0', lt_of_not_le h1']

/-- **C2.**  For every 3-component atom list, 2-D chirality vector and
invertible basis (`numpy.linalg.inv` raises `LinAlgError` on a singular one),
with the nonzero lengths a genuine chirality vector and basis column have
(a zero length sends the Python pipeline down an unmodelled `inf`/`nan`
floating-point path), `generate_xy_chiral_cell` returns exactly those atoms of
the tiled-rotated-dilated intermediate list whose coordinates pass the
half-open unit-cube test — every returned atom passes it, none passing it is
omitted, and the relative order is preserved (the result is a sublist). -/
theorem generate_xy_chiral_cell_spec (atoms : List (Atom ℝ)) (chir : ℤ × ℤ)
    (basis : Matrix (Fin 3) (Fin 3) ℝ)
    (h3 : ∀ a ∈ atoms, a.coord.coordinate_array.length = 3)
    (hdet : basis.det ≠ 0)
    (hv : length_of (realChirVec basis chir) ≠ 0)
    (hb : length_of (colList basis 0) ≠ 0) :
    ∃ I, chiral_intermediate atoms chir basis = .ok I ∧
      generate_xy_chiral_cell atoms chir basis =
        .ok (I.filter fun a => insideBool a.coord) ∧
      (I.filter fun a => insideBool a.coord).Sublist I ∧
      ∀ a, a ∈ I.filter (fun a => insideBool a.coord) ↔
        a ∈ I ∧ insideBool a.coord = true := by
  have hnz : length_of (realChirVec basis chir) * length_of (colList basis 0) ≠ 0 :=
    mul_ne_zero hv hb
  obtain ⟨R1, hrep, hR1⟩ := repeat_chiral_three atoms
    (⌊length_of (realChirVec basis chir)⌋₊ + 2) h3
  obtain ⟨R2, hrot, hR2⟩ := rotate_three R1
    (-(angle_between (realChirVec basis chir) (colList basis 0))) basis hdet hR1
  obtain ⟨R3, hdil, hR3⟩ := dilate_three R2 (1 / length_of (realChirVec basis chir)) hR2
  have hI : chiral_intermediate atoms chir basis = .ok R3 := by
    unfold chiral_intermediate
    simp only [Bind.bind, Except.bind]
    rw [hrep]
    dsimp only []
    rw [hrot]
    dsimp only []
    exact hdil
  have hfil : pyFilterComp (fun atom => is_inside_unit_cell atom.coord) R3 =
      .ok (R3.filter fun a => insideBool a.coord) :=
    pyFilterComp_ok_of_forall _ _ R3 (fun a ha => is_inside_ok3 _ (hR3 a ha))
  refine ⟨R3, hI, ?_, List.filter_sublist R3, fun a => by
    rw [List.mem_filter]⟩
  unfold generate_xy_chiral_cell
  rw [hI]
  simp only [Bind.bind, Except.bind]
  exact hfil

/-- **C2, witness.**  The empty atom list, chirality `(1, 0)` and the identity
basis: the intermediate list and the filtered result both exist. -/
theorem generate_xy_chiral_cell_spec_witness :
    ∃ I, chiral_intermediate [] (1, 0) (1 : Matrix (Fin 3) (Fin 3) ℝ) = .ok I ∧
      generate_xy_chiral_cell [] (1, 0) (1 : Matrix (Fin 3) (Fin 3) ℝ) =
        .ok (I.filter fun a => insideBool a.coord) := by
  have hcol : colList (1 : Matrix (Fin 3) (Fin 3) ℝ) 0 = [1, 0, 0] := by
    simp [colList, Matrix.one_apply]
  have hcol1 : colList (1 : Matrix (Fin 3) (Fin 3) ℝ) 1 = [0, 1, 0] := by
    simp [colList, Matrix.one_apply]
  have hrv : realChirVec (1 : Matrix (Fin 3) (Fin 3) ℝ) (1, 0) = [1, 0, 0] := by
    rw [realChirVec, hcol, hcol1]
    norm_num
  have hlen1 : length_of [(1 : ℝ), 0, 0] = 1 := by
    unfold length_of dotproduct
    norm_num
  obtain ⟨I, hI, hgen, _, _⟩ := generate_xy_chiral_cell_spec [] (1, 0)
    (1 : Matrix (Fin 3) (Fin 3) ℝ) (by simp)
    (by rw [Matrix.det_one]; exact one_ne_zero)
    (by rw [hrv, hlen1]; exact one_ne_zero)
    (by rw [hcol, hlen1]; exact one_ne_zero)
  exact ⟨I, hI, hgen⟩
